import Mathlib

/-!
# Life Infrastructure Tracker: the gamification engine

A shallow embedding of `src/src/utils/gamification.js` together with the helpers it
imports from `calculations.js` and `reminders.js`.

Modelling conventions.
* Rewards, explicit amounts, streak lengths and counters are JavaScript numbers that only
  ever hold integers on these paths; they are `Int`, and their arithmetic is exact, as
  that of binary64 is on integers up to 2^53.
* The read `POINT_REWARDS[type]` follows the prototype chain of a plain object, so a kind
  that names a property of `Object.prototype` yields a function or an object instead of a
  number (`Delta`), and `+` then turns the point total into a text (`PointsValue`).
* Quantities, usage rates and timestamps are JavaScript numbers that may be fractional or
  non-finite; they are `JsNumber` (a rational, one of the two infinities, or NaN).  Every
  arithmetic result is rounded to the nearest binary64 value, ties to even, as IEEE 754
  prescribes; the sign of zero is not represented.
* The state is a record with every field of `initialGamificationState` present, so the
  defensive `?.` and `?? 0` reads of the source are plain field reads.
* Reads of the environment (`crypto.randomUUID`, `new Date()`) are explicit arguments.
* Object spread `{...state, f: v}` is the record update `{ state with f := v }`.
-/

namespace LifeTracker

/-! ## JavaScript numbers -/

/-- The function `Math.round` on an exact rational: the nearest integer, ties upward, that
is the integer part of `x + 1/2`, computed on the numerator and the denominator. -/
def mathRound (x : ℚ) : Int := Int.floor (mkRat (2 * x.num + x.den) (2 * x.den))

/-- The exact quotient `a / b` for `b ≠ 0`, computed on numerators and denominators. -/
def ratDiv (a b : ℚ) : ℚ := mkRat (a.num * b.den * Int.sign b.num) (a.den * b.num.natAbs)

/-- The exact product `a * b`, computed on numerators and denominators. -/
def ratMul (a b : ℚ) : ℚ := mkRat (a.num * b.num) (a.den * b.den)

/-- The exact difference `a - b`, computed on numerators and denominators. -/
def ratSub (a b : ℚ) : ℚ := mkRat (a.num * b.den - b.num * a.den) (a.den * b.den)

/-- A JavaScript number: an exact rational, plus or minus infinity, or NaN. -/
inductive JsNumber where
  | fin (q : ℚ)
  | posInf
  | negInf
  | nan
deriving DecidableEq

namespace JsNumber

/-- The test `Number.isFinite`. -/
def isFinite : JsNumber → Bool
  | fin _ => true
  | _ => false

/-- The comparison `a < b`; any comparison with NaN is false. -/
def lt : JsNumber → JsNumber → Bool
  | fin a, fin b => decide (a < b)
  | fin _, posInf => true
  | negInf, fin _ => true
  | negInf, posInf => true
  | _, _ => false

/-- The comparison `a <= b`; any comparison with NaN is false. -/
def le : JsNumber → JsNumber → Bool
  | fin a, fin b => decide (a ≤ b)
  | fin _, posInf => true
  | negInf, fin _ => true
  | negInf, posInf => true
  | posInf, posInf => true
  | negInf, negInf => true
  | _, _ => false

/-- The comparison `a > b`. -/
def gt (a b : JsNumber) : Bool := lt b a

/-- The comparison `a >= b`. -/
def ge (a b : JsNumber) : Bool := le b a

/-- The number of binary digits of `n`, computed with `fuel` halvings at most. -/
def bitLengthAux : Nat → Nat → Nat
  | 0, _ => 0
  | fuel + 1, n => if n = 0 then 0 else bitLengthAux fuel (n / 2) + 1

/-- The number of binary digits of `n` (0 for 0). -/
def bitLength (n : Nat) : Nat := bitLengthAux n n

/-- The integer part of the base-2 logarithm of `n / d`, for positive `n` and `d`. -/
def floorLog2 (n d : Nat) : Int :=
  let k : Int := (bitLength n : Int) - (bitLength d : Int)
  let atLeast : Bool :=
    if 0 ≤ k then decide (d * 2 ^ k.toNat ≤ n) else decide (d ≤ n * 2 ^ (-k).toNat)
  if atLeast then k else k - 1

/-- The integer nearest to `n / d`, a tie going to the even neighbour. -/
def roundHalfEven (n d : Nat) : Nat :=
  let q := n / d
  let r := n % d
  if 2 * r < d then q
  else if d < 2 * r then q + 1
  else if q % 2 = 0 then q else q + 1

/-- The binary64 value nearest to `n / d` (for positive `n` and `d`), negated when
`negative` is set: 53 significant bits, ties to even, gradual underflow below
`2 ^ (-1022)`, overflow to an infinity from `2 ^ 1024 - 2 ^ 970` on. -/
def roundBinary64 (negative : Bool) (n d : Nat) : JsNumber :=
  let e := floorLog2 n d
  let shift : Int := Min.min (52 - e) 1074
  let s : Nat :=
    if 0 ≤ shift then roundHalfEven (n * 2 ^ shift.toNat) d
    else roundHalfEven n (d * 2 ^ (-shift).toNat)
  if 1024 ≤ e ∨ (e = 1023 ∧ s = 2 ^ 53) then (if negative then negInf else posInf)
  else
    let magnitude : ℚ :=
      if 0 ≤ shift then mkRat s (2 ^ shift.toNat) else mkRat (s * 2 ^ (-shift).toNat) 1
    fin (if negative then mkRat (-magnitude.num) magnitude.den else magnitude)

/-- The binary64 value that an exact real result `x` is rounded to. -/
def ofRat (x : ℚ) : JsNumber :=
  if x = 0 then fin 0 else roundBinary64 (decide (x < 0)) x.num.natAbs x.den

/-- The quotient `a / b` (a zero divisor is taken as positive zero). -/
def div : JsNumber → JsNumber → JsNumber
  | nan, _ => nan
  | _, nan => nan
  | fin a, fin b =>
    if b = 0 then (if a = 0 then nan else if 0 < a then posInf else negInf)
    else ofRat (ratDiv a b)
  | fin _, posInf => fin 0
  | fin _, negInf => fin 0
  | posInf, fin b => if b < 0 then negInf else posInf
  | negInf, fin b => if b < 0 then posInf else negInf
  | posInf, posInf => nan
  | posInf, negInf => nan
  | negInf, posInf => nan
  | negInf, negInf => nan

/-- The product `a * b`. -/
def mul : JsNumber → JsNumber → JsNumber
  | nan, _ => nan
  | _, nan => nan
  | fin a, fin b => ofRat (ratMul a b)
  | fin a, posInf => if a = 0 then nan else if 0 < a then posInf else negInf
  | fin a, negInf => if a = 0 then nan else if 0 < a then negInf else posInf
  | posInf, fin b => if b = 0 then nan else if 0 < b then posInf else negInf
  | negInf, fin b => if b = 0 then nan else if 0 < b then negInf else posInf
  | posInf, posInf => posInf
  | posInf, negInf => negInf
  | negInf, posInf => negInf
  | negInf, negInf => posInf

/-- The difference `a - b`. -/
def sub : JsNumber → JsNumber → JsNumber
  | nan, _ => nan
  | _, nan => nan
  | fin a, fin b => ofRat (ratSub a b)
  | fin _, posInf => negInf
  | fin _, negInf => posInf
  | posInf, fin _ => posInf
  | negInf, fin _ => negInf
  | posInf, posInf => nan
  | posInf, negInf => posInf
  | negInf, posInf => negInf
  | negInf, negInf => nan

/-- The function `Math.round`: the nearest integer, ties upward. -/
def round : JsNumber → JsNumber
  | fin q => fin (mathRound q : Int)
  | other => other

/-- The function `Math.floor`. -/
def floor : JsNumber → JsNumber
  | fin q => fin (Int.floor q : Int)
  | other => other

/-- The function `Math.min` of two arguments: NaN when either is NaN. -/
def min (a b : JsNumber) : JsNumber :=
  match a, b with
  | nan, _ => nan
  | _, nan => nan
  | _, _ => if lt b a then b else a

/-- The function `Math.max` of two arguments: NaN when either is NaN. -/
def max (a b : JsNumber) : JsNumber :=
  match a, b with
  | nan, _ => nan
  | _, nan => nan
  | _, _ => if lt a b then b else a

end JsNumber

/-! ## calculations.js -/

/-- The function `calculateDaysLeft(quantity, dailyUsage)`; both arguments are already
numbers, so `Number(...)` is the identity. -/
def calculateDaysLeft (quantity dailyUsage : JsNumber) : JsNumber :=
  if !quantity.isFinite || JsNumber.lt quantity (JsNumber.fin 0) then JsNumber.fin 0
  else if !dailyUsage.isFinite || JsNumber.le dailyUsage (JsNumber.fin 0) then JsNumber.posInf
  else
    JsNumber.div
      (JsNumber.round (JsNumber.mul (JsNumber.div quantity dailyUsage) (JsNumber.fin 10)))
      (JsNumber.fin 10)

/-- The two readings of the clock and the calendar that `daysUntil` makes.
`localMidnight text` is `new Date(text).setHours(0, 0, 0, 0)`: the epoch milliseconds of
local midnight on the local calendar day that holds the instant `text` parses to, or
`none` when `text` is not a date (the source then holds NaN).  `todayMidnight` is
`new Date().setHours(0, 0, 0, 0)`.  Two instants lie on the same local calendar day
exactly when their local midnights are equal, and on an earlier day exactly when the
local midnight is smaller. -/
structure Calendar where
  localMidnight : String → Option Int
  todayMidnight : Int

/-- The function `daysUntil(dateString)`; an absent argument (null or undefined) is `none`. -/
def daysUntil (calendar : Calendar) (dateString : Option String) : JsNumber :=
  match dateString with
  | none => JsNumber.posInf
  | some text =>
    if text = "" then JsNumber.posInf
    else
      let target : JsNumber :=
        match calendar.localMidnight text with
        | some millis => JsNumber.fin millis
        | none => JsNumber.nan
      let diff := JsNumber.sub target (JsNumber.fin calendar.todayMidnight)
      JsNumber.floor (JsNumber.div diff (JsNumber.fin (1000 * 60 * 60 * 24 : Int)))

/-! ## Records -/

/-- An inventory item as the host stores it. -/
structure InventoryItem where
  id : String
  name : String
  quantity : JsNumber
  unit : String
  dailyUsage : JsNumber
  location : String
deriving DecidableEq

/-- A bill as the host stores it. -/
structure Bill where
  id : String
  name : String
  amount : JsNumber
  dueDate : Option String
  recurring : Bool
  lastPaidDate : Option String
deriving DecidableEq

/-! ## reminders.js -/

/-- The constant `LOW_ITEM_THRESHOLD_DAYS`. -/
def LOW_ITEM_THRESHOLD_DAYS : JsNumber := JsNumber.fin 3

/-- The function `getLowInventoryItems(items)`. -/
def getLowInventoryItems (items : List InventoryItem) : List InventoryItem :=
  items.filter (fun item =>
    JsNumber.lt (calculateDaysLeft item.quantity item.dailyUsage) LOW_ITEM_THRESHOLD_DAYS)

/-- The constant `UPCOMING_BILL_THRESHOLD_DAYS`. -/
def UPCOMING_BILL_THRESHOLD_DAYS : JsNumber := JsNumber.fin 7

/-- The function `getUpcomingBills(bills)`. -/
def getUpcomingBills (calendar : Calendar) (bills : List Bill) : List Bill :=
  bills.filter (fun bill =>
    let days := daysUntil calendar bill.dueDate
    days.isFinite && JsNumber.ge days (JsNumber.fin 0)
      && JsNumber.le days UPCOMING_BILL_THRESHOLD_DAYS)

/-- The bills that the callers count as overdue: `daysUntil(bill.dueDate) < 0`. -/
def overdueBills (calendar : Calendar) (bills : List Bill) : List Bill :=
  bills.filter (fun bill => JsNumber.lt (daysUntil calendar bill.dueDate) (JsNumber.fin 0))

/-! ## gamification.js: tables and state -/

/-- The own keys and values of the object `POINT_REWARDS`. -/
def POINT_REWARDS : List (String × Int) :=
  [("inventoryAdd", 10), ("inventoryRestock", 6), ("billPaidOnTime", 15),
   ("reminderResponse", 8)]

/-- The property names that the plain object `POINT_REWARDS` inherits from
`Object.prototype`; each of them reads as a function, or for `__proto__` as an object. -/
def OBJECT_PROTOTYPE_KEYS : List String :=
  ["constructor", "__defineGetter__", "__defineSetter__", "hasOwnProperty",
   "__lookupGetter__", "__lookupSetter__", "isPrototypeOf", "propertyIsEnumerable",
   "toString", "valueOf", "__proto__", "toLocaleString"]

/-- What the `delta` of an award can hold: a number, or the function or object read under
the inherited property name `name`. -/
inductive Delta where
  | number (n : Int)
  | inherited (name : String)
deriving DecidableEq

/-- The test `!delta`: among these values only the number 0 is falsy. -/
def Delta.isFalsy : Delta → Bool
  | .number n => decide (n = 0)
  | .inherited _ => false

/-- The read `POINT_REWARDS[type]`: an own value, else an inherited one, else undefined. -/
def lookupReward (type : String) : Option Delta :=
  match POINT_REWARDS.lookup type with
  | some reward => some (Delta.number reward)
  | none => if type ∈ OBJECT_PROTOTYPE_KEYS then some (Delta.inherited type) else none

/-- What a `points` field can hold: a number, or the text that `+` builds once a
non-number has been added, namely the decimal numeral of `start`, then the rendering of
the function or object named `first`, then the renderings of `rest` in order.  Such a text
never reads as a number. -/
inductive PointsValue where
  | number (n : Int)
  | text (start : Int) (first : String) (rest : List Delta)
deriving DecidableEq

/-- The expression `points + delta`: addition of two numbers, concatenation otherwise. -/
def PointsValue.plus : PointsValue → Delta → PointsValue
  | .number n, .number d => .number (n + d)
  | .number n, .inherited name => .text n name []
  | .text start first rest, delta => .text start first (rest ++ [delta])

/-- One row of the level table. -/
structure Level where
  name : String
  min : Int
deriving DecidableEq

/-- The table `LEVELS`. -/
def LEVELS : List Level :=
  [⟨"Bronze Caretaker", 0⟩, ⟨"Silver Steward", 200⟩, ⟨"Gold Guardian", 500⟩,
   ⟨"Platinum Protector", 900⟩]

/-- The streak sub-record. -/
structure Streak where
  current : Int
  best : Int
  lastEvaluatedDate : Option String
deriving DecidableEq

/-- The counters sub-record. -/
structure Counters where
  billsPaidOnTime : Int
  essentialsTracked : Int
  consecutivePreparedDays : Int
deriving DecidableEq

/-- The metadata object attached to an award: its keys and values. -/
abbrev Metadata := List (String × String)

/-- One entry of the history log. -/
structure HistoryEntry where
  id : String
  type : String
  points : Delta
  message : String
  metadata : Option Metadata
  timestamp : String
deriving DecidableEq

/-- The gamification state record. -/
structure GamificationState where
  points : PointsValue
  streak : Streak
  badges : List String
  level : String
  history : List HistoryEntry
  counters : Counters
  lastReminderAcknowledged : Option String
deriving DecidableEq

/-- The first row of `LEVELS`, read as `LEVELS[0]`. -/
def firstLevel : Level := LEVELS.get ⟨0, by decide⟩

/-- The last row of `LEVELS`, read as `LEVELS[LEVELS.length - 1]`. -/
def lastLevel : Level := LEVELS.get ⟨LEVELS.length - 1, by decide⟩

/-- The constant `initialGamificationState`. -/
def initialGamificationState : GamificationState :=
  { points := PointsValue.number 0
    streak := { current := 0, best := 0, lastEvaluatedDate := none }
    badges := []
    level := firstLevel.name
    history := []
    counters := { billsPaidOnTime := 0, essentialsTracked := 0, consecutivePreparedDays := 0 }
    lastReminderAcknowledged := none }

/-! ## gamification.js: functions -/

/-- The function `getLevelForPoints(points)` on a number. -/
def getLevelForPoints (points : Int) : String :=
  match LEVELS.reverse.find? (fun level => decide (points ≥ level.min)) with
  | some tier => tier.name
  | none => firstLevel.name

/-- The function `getLevelForPoints(points)` on whatever a points field holds: a text
converts to NaN in every comparison `points >= level.min`, so no tier is found and the
name of `LEVELS[0]` is returned. -/
def getLevelForPointsValue : PointsValue → String
  | .number n => getLevelForPoints n
  | .text _ _ _ => firstLevel.name

/-- The record returned by `calculateHouseholdHealth`. -/
structure HouseholdHealth where
  score : Int
  status : String
  colorClass : String
deriving DecidableEq

/-- The function `calculateHouseholdHealth(inventory, bills)`.  The score is an integer
throughout (two list lengths scaled by 12 and 18), so `Math.round` leaves it as it is. -/
def calculateHouseholdHealth (calendar : Calendar) (inventory : List InventoryItem)
    (bills : List Bill) : HouseholdHealth :=
  let lowItems : Int := (getLowInventoryItems inventory).length
  let overdueBills : Int :=
    (bills.filter (fun bill =>
      JsNumber.lt (daysUntil calendar bill.dueDate) (JsNumber.fin 0))).length
  let score : Int := 100
  let score := score - lowItems * 12
  let score := score - overdueBills * 18
  let score := max 0 (min 100 score)
  let status := if score < 35 then "danger" else if score < 70 then "watch" else "secure"
  { score := score
    status := status
    colorClass :=
      if status = "secure" then "bg-green-500"
      else if status = "watch" then "bg-amber-400"
      else "bg-red-500" }

/-- The object literal that `awardPoints` hands to `appendHistory`: an entry that has no
`id` yet. -/
structure EntryFields where
  type : String
  points : Delta
  message : String
  metadata : Option Metadata
  timestamp : String
deriving DecidableEq

/-- The function `appendHistory(state, entry)`; `id` is the fresh identifier drawn from
`crypto.randomUUID` or the clock, placed in front of the spread of `entry`. -/
def appendHistory (state : GamificationState) (id : String) (entry : EntryFields) :
    GamificationState :=
  let historyEntry : HistoryEntry :=
    { id := id, type := entry.type, points := entry.points, message := entry.message,
      metadata := entry.metadata, timestamp := entry.timestamp }
  let history := (historyEntry :: state.history).take 25
  { state with history := history }

/-- The award descriptor passed to `awardPoints`. -/
structure Award where
  type : String
  amount : Option Int
  message : String
  metadata : Option Metadata
deriving DecidableEq

/-- The expression `amount ?? POINT_REWARDS[type] ?? 0`. -/
def resolveDelta (award : Award) : Delta :=
  match award.amount with
  | some amount => Delta.number amount
  | none =>
    match lookupReward award.type with
    | some reward => reward
    | none => Delta.number 0

/-- The function `awardPoints(state, award)`; `id` and `now` are the identifier and the
ISO timestamp read from the environment when the history entry is built. -/
def awardPoints (state : GamificationState) (award : Award) (id now : String) :
    GamificationState :=
  let delta := resolveDelta award
  if delta.isFalsy then state
  else
    let nextPoints := state.points.plus delta
    let historyState := appendHistory state id
      { type := award.type, points := delta, message := award.message,
        metadata := award.metadata, timestamp := now }
    { historyState with points := nextPoints, level := getLevelForPointsValue nextPoints }

/-- The function `registerInventoryEvent(state, isNewItem, itemName)`; the figures in the
messages are `POINT_REWARDS.inventoryAdd` and `POINT_REWARDS.inventoryRestock` as the
template strings render them. -/
def registerInventoryEvent (state : GamificationState) (isNewItem : Bool) (itemName : String)
    (id now : String) : GamificationState :=
  let rewardType := if isNewItem then "inventoryAdd" else "inventoryRestock"
  let message :=
    if isNewItem then "✨ Earned 10 points for logging " ++ itemName ++ "."
    else "🔄 Earned 6 points for restocking " ++ itemName ++ "."
  let updated := awardPoints state
    { type := rewardType, amount := none, message := message,
      metadata := some [("itemName", itemName)] } id now
  if isNewItem then
    let essentialsTracked := updated.counters.essentialsTracked + 1
    { updated with counters := { updated.counters with essentialsTracked := essentialsTracked } }
  else updated

/-- The function `registerBillPaid(state, billName, onTime)`; the figure in the message is
`POINT_REWARDS.billPaidOnTime` as the template string renders it. -/
def registerBillPaid (state : GamificationState) (billName : String) (onTime : Bool)
    (id now : String) : GamificationState :=
  if onTime then
    let updated := awardPoints state
      { type := "billPaidOnTime", amount := none,
        message := "💡 Earned 15 points for paying " ++ billName ++ " on time.",
        metadata := some [("billName", billName)] } id now
    let billsPaidOnTime := updated.counters.billsPaidOnTime + 1
    { updated with counters := { updated.counters with billsPaidOnTime := billsPaidOnTime } }
  else state

/-- The function `registerReminderResponse(state)`; `ackTime` is the second clock read. -/
def registerReminderResponse (state : GamificationState) (id now ackTime : String) :
    GamificationState :=
  let updated := awardPoints state
    { type := "reminderResponse", amount := none,
      message := "🎯 Earned 8 points for acting on a reminder.", metadata := none } id now
  { updated with lastReminderAcknowledged := some ackTime }

/-- The method `Set.prototype.add` on a set kept as its insertion-ordered list. -/
def setAdd (set : List String) (value : String) : List String :=
  if value ∈ set then set else set ++ [value]

/-- The constructor `new Set(values)`: the values are added one by one. -/
def newSet (values : List String) : List String := values.foldl setAdd []

/-- The function `evaluateBadges(state, inventory, bills)`. -/
def evaluateBadges (state : GamificationState) (inventory : List InventoryItem)
    (_bills : List Bill) : GamificationState :=
  let badges := newSet state.badges
  let badges := if state.counters.billsPaidOnTime ≥ 3 then setAdd badges "Utility Master"
    else badges
  let allHealthy := (getLowInventoryItems inventory).all (fun item =>
    let days := if JsNumber.gt item.dailyUsage (JsNumber.fin 0)
      then JsNumber.div item.quantity item.dailyUsage else JsNumber.posInf
    JsNumber.ge days (JsNumber.fin 2))
  let badges := if allHealthy && decide (inventory.length > 0)
    then setAdd badges "Preparedness Pro" else badges
  let badges := if state.counters.essentialsTracked ≥ 10
    then setAdd badges "Resilient Household" else badges
  { state with badges := badges }

/-- The function `updateStreak(state, hasIssues)`; `todayKey` is the first ten characters
of the ISO rendering of the current instant. -/
def updateStreak (state : GamificationState) (hasIssues : Bool) (todayKey : String) :
    GamificationState :=
  let lastEvaluated := state.streak.lastEvaluatedDate
  if lastEvaluated = some todayKey then state
  else
    let current := if hasIssues then 0 else state.streak.current + 1
    let current := if hasIssues then 0 else current
    let best := max state.streak.best current
    let counters := { state.counters with
      consecutivePreparedDays :=
        if hasIssues then 0 else state.counters.consecutivePreparedDays + 1 }
    { state with
      streak := { current := current, best := best, lastEvaluatedDate := some todayKey }
      counters := counters }

/-- The record returned by `getLevelProgress`. -/
structure LevelProgress where
  label : String
  progress : JsNumber
  nextLabel : String
  nextThreshold : Option Int
deriving DecidableEq

/-- The function `getLevelProgress(points)`. -/
def getLevelProgress (points : Int) : LevelProgress :=
  let found := LEVELS.enum.find? (fun entry =>
    match LEVELS.get? (entry.1 + 1) with
    | none => true
    | some next => decide (points ≥ entry.2.min) && decide (points < next.min))
  let currentLevel := match found with
    | some entry => entry.2
    | none => lastLevel
  match LEVELS.get? (LEVELS.indexOf currentLevel + 1) with
  | none =>
    { label := currentLevel.name, progress := JsNumber.fin 100, nextLabel := "Max level",
      nextThreshold := none }
  | some nextLevel =>
    let range : Int := nextLevel.min - currentLevel.min
    let progress := JsNumber.min (JsNumber.fin 100)
      (JsNumber.round (JsNumber.mul
        (JsNumber.div (JsNumber.fin (points - currentLevel.min : Int)) (JsNumber.fin range))
        (JsNumber.fin 100)))
    { label := currentLevel.name, progress := progress, nextLabel := nextLevel.name,
      nextThreshold := some nextLevel.min }

/-! ## Transitions of the engine -/

/-- One call of an exported transition function, with its arguments. -/
inductive Transition where
  | award (award : Award) (id now : String)
  | inventoryEvent (isNewItem : Bool) (itemName : String) (id now : String)
  | billPaid (billName : String) (onTime : Bool) (id now : String)
  | reminderResponse (id now ackTime : String)
  | badges (inventory : List InventoryItem) (bills : List Bill)
  | streak (hasIssues : Bool) (todayKey : String)

/-- The state after one transition. -/
def Transition.apply (state : GamificationState) : Transition → GamificationState
  | .award reward id now => awardPoints state reward id now
  | .inventoryEvent isNewItem itemName id now =>
    registerInventoryEvent state isNewItem itemName id now
  | .billPaid billName onTime id now => registerBillPaid state billName onTime id now
  | .reminderResponse id now ackTime => registerReminderResponse state id now ackTime
  | .badges inventory bills => evaluateBadges state inventory bills
  | .streak hasIssues todayKey => updateStreak state hasIssues todayKey

/-- The state after a sequence of transitions, applied left to right. -/
def run (state : GamificationState) (steps : List Transition) : GamificationState :=
  steps.foldl Transition.apply state

/-- The states visited by a sequence of transitions, the starting state first. -/
def trace (state : GamificationState) : List Transition → List GamificationState
  | [] => [state]
  | step :: steps => state :: trace (step.apply state) steps

/-! ## Vocabulary for the properties -/

/-- The calls that the points ledger is monotone under: an award whose delta is a number
that is at least 0, an inventory event, an on-time bill payment, a reminder response. -/
def Transition.addsPoints : Transition → Bool
  | .award reward _ _ =>
    match resolveDelta reward with
    | .number delta => decide (0 ≤ delta)
    | .inherited _ => false
  | .inventoryEvent _ _ _ _ => true
  | .billPaid _ onTime _ _ => onTime
  | .reminderResponse _ _ _ => true
  | .badges _ _ => false
  | .streak _ _ => false

/-- An award call together with the identifier and timestamp the environment supplies. -/
structure AwardCall where
  award : Award
  id : String
  now : String
deriving DecidableEq

/-- The history entry that an award call writes. -/
def AwardCall.entry (call : AwardCall) : HistoryEntry :=
  { id := call.id, type := call.award.type, points := resolveDelta call.award,
    message := call.award.message, metadata := call.award.metadata, timestamp := call.now }

/-- The state after a sequence of `awardPoints` calls, applied left to right. -/
def awardAll (state : GamificationState) (calls : List AwardCall) : GamificationState :=
  calls.foldl (fun st call => awardPoints st call.award call.id call.now) state

/-- The largest `streak.current` among the given states, and at least `floor`. -/
def maxCurrent (floor : Int) (states : List GamificationState) : Int :=
  states.foldl (fun m st => max m st.streak.current) floor

/-- The percentage that the progress formula denotes in exact arithmetic:
`min(100, round(100 * (points - min) / (nextMin - min)))`. -/
def exactProgress (points min nextMin : Int) : Int :=
  Min.min 100 (mathRound (mkRat (100 * (points - min)) (nextMin - min).toNat))

/-- The point totals below 900 at which binary64 rounding of the quotient and of the
product moves the progress off the exactly computed percentage. -/
def progressExceptions : List Int := [29, 57, 113, 115, 558, 614, 726, 730]

/-- One on-time payment call: the bill name and the identifier and timestamp that the
environment supplies. -/
structure PaymentCall where
  billName : String
  id : String
  now : String
deriving DecidableEq

/-- The state after a sequence of on-time `registerBillPaid` calls, applied left to right. -/
def payAllOnTime (state : GamificationState) (calls : List PaymentCall) : GamificationState :=
  calls.foldl (fun st call => registerBillPaid st call.billName true call.id call.now) state

/-- The days that the callback inside `evaluateBadges` recomputes for an item:
`item.dailyUsage > 0 ? item.quantity / item.dailyUsage : Infinity`. -/
def recomputedDays (item : InventoryItem) : JsNumber :=
  if JsNumber.gt item.dailyUsage (JsNumber.fin 0)
  then JsNumber.div item.quantity item.dailyUsage else JsNumber.posInf

/-- An item with one day of stock left. -/
def lowStockItem : InventoryItem :=
  { id := "i-2", name := "Water", quantity := JsNumber.fin 2, unit := "l",
    dailyUsage := JsNumber.fin 2, location := "pantry" }

/-- A calendar that knows two dates, ten days apart, and stands on the later one. -/
def sampleCalendar : Calendar :=
  { localMidnight := fun text =>
      if text = "2024-03-01" then some 1709251200000
      else if text = "2024-03-11" then some 1710115200000
      else none
    todayMidnight := 1710115200000 }

/-- A bill that fell due on the earlier date of `sampleCalendar`. -/
def overdueBill : Bill :=
  { id := "b-1", name := "Rent", amount := JsNumber.fin 900, dueDate := some "2024-03-01",
    recurring := true, lastPaidDate := none }

/-- Whether a transition fires an award, that is, reaches `awardPoints` with a delta that
passes the test `!delta`. -/
def Transition.firesAward : Transition → Bool
  | .award reward _ _ => !(resolveDelta reward).isFalsy
  | .inventoryEvent _ _ _ _ => true
  | .billPaid _ onTime _ _ => onTime
  | .reminderResponse _ _ _ => true
  | .badges _ _ => false
  | .streak _ _ => false

/-- Whether the delta that a transition hands to `awardPoints` is a number; the three
registration calls use kinds of the reward table. -/
def Transition.numericDelta : Transition → Bool
  | .award reward _ _ =>
    match resolveDelta reward with
    | .number _ => true
    | .inherited _ => false
  | _ => true

/-- The sum of the `points` fields of the history entries, when every one of them is a
number; `none` when some field holds a function or an object. -/
def historyPoints (state : GamificationState) : Option Int :=
  state.history.foldr (fun entry total =>
    match entry.points, total with
    | .number delta, some sum => some (sum + delta)
    | _, _ => none) (some 0)

/-- Logging a new item, then an award of the kind `constructor` with no amount. -/
def inheritedKindRun : List Transition :=
  [.inventoryEvent true "Water" "id-1" "t1",
   .award ⟨"constructor", none, "bonus", none⟩ "id-2" "t2"]

/-- Whether a list of payment flags (true for on time) holds three on-time payments in a
row. -/
def threeInARow : List Bool → Bool
  | true :: true :: true :: _ => true
  | _ :: rest => threeInARow rest
  | [] => false

/-- The payment flags of the `registerBillPaid` calls in a sequence of transitions. -/
def paymentFlags : List Transition → List Bool
  | [] => []
  | .billPaid _ onTime _ _ :: rest => onTime :: paymentFlags rest
  | _ :: rest => paymentFlags rest

/-- Five payments of the same bill: on time, late, on time, late, on time. -/
def alternatingPayments : List Transition :=
  [.billPaid "Rent" true "id-1" "t1", .billPaid "Rent" false "id-2" "t2",
   .billPaid "Rent" true "id-3" "t3", .billPaid "Rent" false "id-4" "t4",
   .billPaid "Rent" true "id-5" "t5"]

/-- The calendar of a browser in New York on 10 March 2024, the day the clocks go forward:
its local midnight is 05:00 UTC, and the local midnight of 11 March is 04:00 UTC, 23 hours
later. -/
def springForwardCalendar : Calendar :=
  { localMidnight := fun text =>
      if text = "2024-03-11T09:00" then some 1710129600000
      else if text = "2024-03-10T09:00" then some 1710046800000
      else none
    todayMidnight := 1710046800000 }

/-- An item with five units in stock and an infinite usage rate. -/
def unboundedUsageItem : InventoryItem :=
  { id := "i-3", name := "Salt", quantity := JsNumber.fin 5, unit := "kg",
    dailyUsage := JsNumber.posInf, location := "pantry" }

/-- The largest power of two that binary64 holds, `2 ^ 1023`. -/
def hugeQuantity : JsNumber := JsNumber.fin ((2 ^ 1023 : Nat) : Int)

/-- Whether an item has a finite quantity that is at least 0 and a finite usage above 0. -/
def InventoryItem.wellFormed (item : InventoryItem) : Bool :=
  item.quantity.isFinite && JsNumber.ge item.quantity (JsNumber.fin 0)
    && item.dailyUsage.isFinite && JsNumber.gt item.dailyUsage (JsNumber.fin 0)

/-! ## Auxiliary facts -/

/-! ### Exact arithmetic on numerators and denominators -/

theorem ratMul_eq (a b : ℚ) : ratMul a b = a * b := by
  unfold ratMul
  rw [Rat.mkRat_eq_div]
  have ha : (a.den : ℚ) ≠ 0 := by exact_mod_cast a.den_nz
  have hb : (b.den : ℚ) ≠ 0 := by exact_mod_cast b.den_nz
  conv_rhs => rw [← Rat.num_div_den a, ← Rat.num_div_den b]
  push_cast
  field_simp

theorem ratSub_eq (a b : ℚ) : ratSub a b = a - b := by
  unfold ratSub
  rw [Rat.mkRat_eq_div]
  have ha : (a.den : ℚ) ≠ 0 := by exact_mod_cast a.den_nz
  have hb : (b.den : ℚ) ≠ 0 := by exact_mod_cast b.den_nz
  conv_rhs => rw [← Rat.num_div_den a, ← Rat.num_div_den b]
  push_cast
  field_simp
  ring

theorem ratDiv_eq (a b : ℚ) (h : b ≠ 0) : ratDiv a b = a / b := by
  unfold ratDiv
  rw [Rat.mkRat_eq_div]
  have ha : (a.den : ℚ) ≠ 0 := by exact_mod_cast a.den_nz
  have hb : (b.den : ℚ) ≠ 0 := by exact_mod_cast b.den_nz
  have hn : b.num ≠ 0 := Rat.num_ne_zero.mpr h
  have hnq : (b.num : ℚ) ≠ 0 := by exact_mod_cast hn
  conv_rhs => rw [← Rat.num_div_den a, ← Rat.num_div_den b]
  rcases Int.lt_or_gt_of_ne hn with hlt | hgt
  · have hs : Int.sign b.num = -1 := Int.sign_eq_neg_one_of_neg hlt
    have hab : ((b.num.natAbs : Nat) : ℚ) = -(b.num : ℚ) := by
      rw [Nat.cast_natAbs, abs_of_neg hlt]
      push_cast
      rfl
    rw [hs]
    push_cast
    rw [hab]
    field_simp
  · have hs : Int.sign b.num = 1 := Int.sign_eq_one_of_pos hgt
    have hab : ((b.num.natAbs : Nat) : ℚ) = (b.num : ℚ) := by
      rw [Nat.cast_natAbs, abs_of_pos hgt]
    rw [hs]
    push_cast
    rw [hab]
    field_simp

/-! ### Awards -/

theorem lookup_reward_pos (type : String) (reward : Int)
    (h : POINT_REWARDS.lookup type = some reward) : 0 < reward := by
  simp only [POINT_REWARDS, List.lookup] at h
  repeat' split at h
  all_goals first | (simp at h; omega) | simp at h

theorem isFalsy_iff (delta : Delta) : delta.isFalsy = true ↔ delta = Delta.number 0 := by
  cases delta <;> simp [Delta.isFalsy]

theorem isFalsy_number (n : Int) : (Delta.number n).isFalsy = decide (n = 0) := rfl

theorem lookupReward_truthy (type : String) (reward : Delta)
    (h : lookupReward type = some reward) : reward.isFalsy = false := by
  unfold lookupReward at h
  cases hl : POINT_REWARDS.lookup type with
  | some r =>
    rw [hl] at h
    simp only [Option.some.injEq] at h
    subst h
    have := lookup_reward_pos _ _ hl
    simp only [Delta.isFalsy, decide_eq_false_iff_not]
    omega
  | none =>
    rw [hl] at h
    simp only at h
    split at h
    · simp only [Option.some.injEq] at h
      subst h
      rfl
    · exact absurd h (by simp)

theorem lookupReward_number_pos (type : String) (reward : Int)
    (h : lookupReward type = some (Delta.number reward)) : 0 < reward := by
  unfold lookupReward at h
  cases hl : POINT_REWARDS.lookup type with
  | some r =>
    rw [hl] at h
    simp only [Option.some.injEq, Delta.number.injEq] at h
    subst h
    exact lookup_reward_pos _ _ hl
  | none =>
    rw [hl] at h
    simp only at h
    split at h <;> simp at h

/-- A numeric delta is at least 0 as soon as an explicit amount, if any, is. -/
theorem resolveDelta_nonneg (award : Award) (delta : Int)
    (h : ∀ n, award.amount = some n → 0 ≤ n) (hd : resolveDelta award = Delta.number delta) :
    0 ≤ delta := by
  unfold resolveDelta at hd
  cases ha : award.amount with
  | some n =>
    rw [ha] at hd
    simp only [Delta.number.injEq] at hd
    subst hd
    exact h n ha
  | none =>
    rw [ha] at hd
    simp only at hd
    cases hl : lookupReward award.type with
    | none =>
      rw [hl] at hd
      simp only [Delta.number.injEq] at hd
      omega
    | some r =>
      rw [hl] at hd
      simp only at hd
      subst hd
      exact (lookupReward_number_pos _ _ hl).le

theorem resolveDelta_inventoryAdd (m : String) (md : Option Metadata) :
    resolveDelta ⟨"inventoryAdd", none, m, md⟩ = Delta.number 10 := rfl

theorem resolveDelta_inventoryRestock (m : String) (md : Option Metadata) :
    resolveDelta ⟨"inventoryRestock", none, m, md⟩ = Delta.number 6 := rfl

theorem resolveDelta_billPaidOnTime (m : String) (md : Option Metadata) :
    resolveDelta ⟨"billPaidOnTime", none, m, md⟩ = Delta.number 15 := rfl

theorem resolveDelta_reminderResponse (m : String) (md : Option Metadata) :
    resolveDelta ⟨"reminderResponse", none, m, md⟩ = Delta.number 8 := rfl

theorem plus_number (n d : Int) :
    (PointsValue.number n).plus (Delta.number d) = PointsValue.number (n + d) := rfl

theorem awardPoints_of_falsy (s : GamificationState) (a : Award) (id now : String)
    (h : (resolveDelta a).isFalsy = true) : awardPoints s a id now = s := by
  simp [awardPoints, h]

theorem awardPoints_of_truthy (s : GamificationState) (a : Award) (id now : String)
    (h : (resolveDelta a).isFalsy = false) :
    awardPoints s a id now =
      { s with
        history := (AwardCall.entry ⟨a, id, now⟩ :: s.history).take 25
        points := s.points.plus (resolveDelta a)
        level := getLevelForPointsValue (s.points.plus (resolveDelta a)) } := by
  simp [awardPoints, h, appendHistory, AwardCall.entry]

/-- The point total after an award whose delta is the number `d`, on a numeric total. -/
theorem awardPoints_points (s : GamificationState) (a : Award) (id now : String)
    (n d : Int) (hn : s.points = PointsValue.number n)
    (hd : resolveDelta a = Delta.number d) :
    (awardPoints s a id now).points = PointsValue.number (n + d) := by
  by_cases h0 : d = 0
  · rw [awardPoints_of_falsy s a id now (by rw [hd, isFalsy_number]; simp [h0]), hn, h0]
    simp
  · rw [awardPoints_of_truthy s a id now (by rw [hd, isFalsy_number]; simp [h0]), hd, hn]
    rfl

theorem awardPoints_streak (s : GamificationState) (a : Award) (id now : String) :
    (awardPoints s a id now).streak = s.streak := by
  cases h : (resolveDelta a).isFalsy
  · simp [awardPoints_of_truthy, h]
  · simp [awardPoints_of_falsy, h]

theorem awardPoints_badges (s : GamificationState) (a : Award) (id now : String) :
    (awardPoints s a id now).badges = s.badges := by
  cases h : (resolveDelta a).isFalsy
  · simp [awardPoints_of_truthy, h]
  · simp [awardPoints_of_falsy, h]

theorem awardPoints_counters (s : GamificationState) (a : Award) (id now : String) :
    (awardPoints s a id now).counters = s.counters := by
  cases h : (resolveDelta a).isFalsy
  · simp [awardPoints_of_truthy, h]
  · simp [awardPoints_of_falsy, h]

theorem awardPoints_level (s : GamificationState) (a : Award) (id now : String)
    (h : s.level = getLevelForPointsValue s.points) :
    (awardPoints s a id now).level =
      getLevelForPointsValue (awardPoints s a id now).points := by
  cases hd : (resolveDelta a).isFalsy
  · simp [awardPoints_of_truthy, hd]
  · simp [awardPoints_of_falsy, hd, h]

theorem registerInventoryEvent_points (s : GamificationState) (isNewItem : Bool)
    (itemName id now : String) :
    (registerInventoryEvent s isNewItem itemName id now).points =
      s.points.plus (Delta.number (if isNewItem then 10 else 6)) := by
  cases isNewItem
  · simp [registerInventoryEvent, awardPoints_of_truthy, resolveDelta_inventoryRestock,
      Delta.isFalsy]
  · simp [registerInventoryEvent, awardPoints_of_truthy, resolveDelta_inventoryAdd,
      Delta.isFalsy]

theorem registerBillPaid_points (s : GamificationState) (billName : String) (onTime : Bool)
    (id now : String) :
    (registerBillPaid s billName onTime id now).points =
      if onTime then s.points.plus (Delta.number 15) else s.points := by
  cases onTime
  · simp [registerBillPaid]
  · simp [registerBillPaid, awardPoints_of_truthy, resolveDelta_billPaidOnTime,
      Delta.isFalsy]

theorem registerReminderResponse_points (s : GamificationState) (id now ackTime : String) :
    (registerReminderResponse s id now ackTime).points =
      s.points.plus (Delta.number 8) := by
  simp [registerReminderResponse, awardPoints_of_truthy, resolveDelta_reminderResponse,
    Delta.isFalsy]

/-- Every call counted by `addsPoints` takes a numeric point total to a numeric total
that is at least as large. -/
theorem apply_points_le (s : GamificationState) (t : Transition) (n : Int)
    (hn : s.points = PointsValue.number n) (h : t.addsPoints = true) :
    ∃ m : Int, (t.apply s).points = PointsValue.number m ∧ n ≤ m := by
  cases t with
  | award reward id now =>
    simp only [Transition.addsPoints] at h
    cases hd : resolveDelta reward with
    | number d =>
      rw [hd] at h
      simp only [decide_eq_true_eq] at h
      exact ⟨n + d, awardPoints_points s reward id now n d hn hd, by omega⟩
    | inherited name =>
      rw [hd] at h
      exact absurd h (by simp)
  | inventoryEvent isNewItem itemName id now =>
    refine ⟨n + (if isNewItem then 10 else 6), ?_, by split <;> omega⟩
    simp only [Transition.apply, registerInventoryEvent_points, hn, plus_number]
  | billPaid billName onTime id now =>
    simp only [Transition.addsPoints] at h
    subst h
    refine ⟨n + 15, ?_, by omega⟩
    simp only [Transition.apply, registerBillPaid_points, hn, plus_number, if_true]
  | reminderResponse id now ackTime =>
    refine ⟨n + 8, ?_, by omega⟩
    simp only [Transition.apply, registerReminderResponse_points, hn, plus_number]
  | badges inventory bills => simp [Transition.addsPoints] at h
  | streak hasIssues todayKey => simp [Transition.addsPoints] at h

theorem trace_points_ge (steps : List Transition) :
    ∀ (s : GamificationState) (n : Int), s.points = PointsValue.number n →
      (∀ t ∈ steps, t.addsPoints = true) →
      ∀ st ∈ trace s steps, ∃ m : Int, st.points = PointsValue.number m ∧ n ≤ m := by
  induction steps with
  | nil =>
    intro s n hn _ st hst
    simp only [trace, List.mem_singleton] at hst
    subst hst
    exact ⟨n, hn, le_refl n⟩
  | cons t ts ih =>
    intro s n hn h st hst
    simp only [trace, List.mem_cons] at hst
    rcases hst with rfl | hst
    · exact ⟨n, hn, le_refl n⟩
    · obtain ⟨m, hm, hnm⟩ := apply_points_le s t n hn (h t (by simp))
      obtain ⟨k, hk, hmk⟩ := ih (t.apply s) m hm (fun u hu => h u (by simp [hu])) st hst
      exact ⟨k, hk, by omega⟩

/-! ## Points ledger -/

/-- C1 (as stated, refuted): an award with the explicit amount -5 takes the point total of
the initial state from 0 to -5, so points are not non-decreasing under every explicit
amount. -/
theorem points_decrease_on_negative_amount :
    initialGamificationState.points = PointsValue.number 0 ∧
    (awardPoints initialGamificationState
      ⟨"inventoryAdd", some (-5), "adjustment", none⟩ "id-1"
        "2024-01-01T00:00:00.000Z").points = PointsValue.number (-5) ∧
    ¬ ∃ before after : Int,
      initialGamificationState.points = PointsValue.number before ∧
      (awardPoints initialGamificationState
        ⟨"inventoryAdd", some (-5), "adjustment", none⟩ "id-1"
          "2024-01-01T00:00:00.000Z").points = PointsValue.number after ∧
      before ≤ after := by
  refine ⟨rfl, rfl, ?_⟩
  rintro ⟨before, after, hb, ha, hle⟩
  have h1 : PointsValue.number 0 = PointsValue.number before := hb
  have h2 : PointsValue.number (-5) = PointsValue.number after := ha
  simp only [PointsValue.number.injEq] at h1 h2
  omega

/-- C1 (amended): from every starting state whose point total is a number, along every
finite sequence of awardPoints calls whose delta is a number that is at least 0 (an
explicit amount of at least 0, or no amount and a kind that is not the name of a property
inherited from Object.prototype), registerInventoryEvent calls, on-time registerBillPaid
calls and registerReminderResponse calls, the point total of each visited state is a
number and is at most the point total of every later visited state. -/
theorem points_monotonic (s : GamificationState) (n : Int)
    (hn : s.points = PointsValue.number n) (steps : List Transition)
    (h : ∀ t ∈ steps, t.addsPoints = true) :
    (trace s steps).Pairwise (fun before after =>
      ∃ a b : Int, before.points = PointsValue.number a ∧
        after.points = PointsValue.number b ∧ a ≤ b) := by
  induction steps generalizing s n with
  | nil => simp [trace]
  | cons t ts ih =>
    simp only [trace, List.pairwise_cons]
    obtain ⟨m, hm, -⟩ := apply_points_le s t n hn (h t (by simp))
    refine ⟨fun st hst => ?_, ih (t.apply s) m hm (fun u hu => h u (by simp [hu]))⟩
    obtain ⟨k, hk, hnk⟩ := trace_points_ge (t :: ts) s n hn h st
      (by simp only [trace, List.mem_cons]; exact Or.inr hst)
    exact ⟨n, k, hn, hk, hnk⟩

/-- Witness for C1: one restock, one on-time payment, one award of 0 and one award of an
unlisted kind from the initial state. -/
theorem points_monotonic_witness :
    (trace initialGamificationState
      [Transition.inventoryEvent false "Water" "id-1" "t1",
       Transition.billPaid "Rent" true "id-2" "t2",
       Transition.award ⟨"bonus", some 0, "nothing", none⟩ "id-3" "t3",
       Transition.award ⟨"bonus", none, "nothing", none⟩ "id-4" "t4"]).Pairwise
      (fun before after =>
        ∃ a b : Int, before.points = PointsValue.number a ∧
          after.points = PointsValue.number b ∧ a ≤ b) :=
  points_monotonic initialGamificationState 0 rfl _ (by decide)

/-- C2: an award whose resolved delta is non-zero (any delta other than the number 0, a
function read under an inherited name included) stores points + delta, recomputes the
level from that value with getLevelForPoints, and puts the new entry (kind, delta,
message, metadata) in front of the history, cut to 25 entries; streak, badges, counters
and lastReminderAcknowledged are unchanged.  On a numeric total and a numeric delta the
stored value is their integer sum.  The resolved delta is the explicit amount when one is
given and otherwise the table value 10, 6, 15 or 8. -/
theorem awardPoints_effect (s : GamificationState) (a : Award) (id now : String)
    (h : resolveDelta a ≠ Delta.number 0) :
    (awardPoints s a id now).points = s.points.plus (resolveDelta a) ∧
    (awardPoints s a id now).level =
      getLevelForPointsValue (s.points.plus (resolveDelta a)) ∧
    (awardPoints s a id now).history =
      (({ id := id, type := a.type, points := resolveDelta a, message := a.message,
          metadata := a.metadata, timestamp := now } : HistoryEntry) :: s.history).take 25 ∧
    (awardPoints s a id now).streak = s.streak ∧
    (awardPoints s a id now).badges = s.badges ∧
    (awardPoints s a id now).counters = s.counters ∧
    (awardPoints s a id now).lastReminderAcknowledged = s.lastReminderAcknowledged ∧
    (∀ n d : Int, s.points = PointsValue.number n → resolveDelta a = Delta.number d →
      (awardPoints s a id now).points = PointsValue.number (n + d) ∧
      (awardPoints s a id now).level = getLevelForPoints (n + d)) ∧
    (∀ n, a.amount = some n → resolveDelta a = Delta.number n) ∧
    (a.amount = none → a.type = "inventoryAdd" → resolveDelta a = Delta.number 10) ∧
    (a.amount = none → a.type = "inventoryRestock" → resolveDelta a = Delta.number 6) ∧
    (a.amount = none → a.type = "billPaidOnTime" → resolveDelta a = Delta.number 15) ∧
    (a.amount = none → a.type = "reminderResponse" → resolveDelta a = Delta.number 8) := by
  have ht : (resolveDelta a).isFalsy = false := by
    cases hf : (resolveDelta a).isFalsy with
    | false => rfl
    | true => exact absurd ((isFalsy_iff _).1 hf) h
  rw [awardPoints_of_truthy s a id now ht]
  refine ⟨rfl, rfl, rfl, rfl, rfl, rfl, rfl, ?_, ?_, ?_, ?_, ?_, ?_⟩
  · intro n d hn hd
    simp only [hn, hd, plus_number, getLevelForPointsValue, and_self]
  · intro n hn; simp [resolveDelta, hn]
  all_goals
    intro ha ht
    simp [resolveDelta, lookupReward, ha, ht, POINT_REWARDS, List.lookup]

/-- Witness for C2: the 15-point on-time award on the initial state. -/
theorem awardPoints_effect_witness :
    resolveDelta ⟨"billPaidOnTime", none, "paid", none⟩ ≠ Delta.number 0 ∧
    (awardPoints initialGamificationState ⟨"billPaidOnTime", none, "paid", none⟩
      "id-1" "t1").points = PointsValue.number 15 :=
  ⟨by decide,
   ((awardPoints_effect initialGamificationState ⟨"billPaidOnTime", none, "paid", none⟩
      "id-1" "t1" (by decide)).2.2.2.2.2.2.2.1 0 15 rfl rfl).1⟩

/-- The short-circuit of awardPoints: when the resolved delta is the number 0 the input
state is returned as it is.  The delta is 0 exactly for an explicit amount of 0, whatever
the kind, and for a missing amount with a kind that is neither a key of the reward table
nor the name of a property inherited from Object.prototype. -/
theorem awardPoints_zero_delta (s : GamificationState) (a : Award) (id now : String) :
    (resolveDelta a = Delta.number 0 → awardPoints s a id now = s) ∧
    (resolveDelta a = Delta.number 0 ↔
      a.amount = some 0 ∨
        (a.amount = none ∧ POINT_REWARDS.lookup a.type = none ∧
          a.type ∉ OBJECT_PROTOTYPE_KEYS)) := by
  refine ⟨fun h => awardPoints_of_falsy s a id now ((isFalsy_iff _).2 h), ?_⟩
  unfold resolveDelta
  cases ha : a.amount with
  | some n => simp
  | none =>
    simp only [false_or, true_and]
    unfold lookupReward
    cases hl : POINT_REWARDS.lookup a.type with
    | some r =>
      have hr := lookup_reward_pos _ _ hl
      have hr0 : r ≠ 0 := by omega
      simp [hr0]
    | none =>
      by_cases hk : a.type ∈ OBJECT_PROTOTYPE_KEYS
      · simp [hk]
      · simp [hk]

/-- C3 (the code departs from the claim): the kind constructor is absent from the reward
table and the award carries no amount, yet the read of the table finds the inherited
property of that name, so awardPoints does not return its input: it writes a history
entry whose points field is that function and replaces the point total 0 by a text. -/
theorem awardPoints_inherited_kind_fires :
    POINT_REWARDS.lookup "constructor" = none ∧
    resolveDelta ⟨"constructor", none, "bonus", none⟩ = Delta.inherited "constructor" ∧
    awardPoints initialGamificationState ⟨"constructor", none, "bonus", none⟩ "id-1" "t1"
      ≠ initialGamificationState ∧
    (awardPoints initialGamificationState ⟨"constructor", none, "bonus", none⟩ "id-1"
      "t1").history =
        [{ id := "id-1", type := "constructor", points := Delta.inherited "constructor",
           message := "bonus", metadata := none, timestamp := "t1" }] ∧
    (awardPoints initialGamificationState ⟨"constructor", none, "bonus", none⟩ "id-1"
      "t1").points = PointsValue.text 0 "constructor" [] := by
  decide

/-! ## History log -/

theorem take_append_take {α : Type} (n : Nat) (xs ys : List α) :
    (xs ++ ys.take n).take n = (xs ++ ys).take n := by
  rw [List.take_append_eq_append_take, List.take_append_eq_append_take, List.take_take]
  congr 2
  omega

theorem awardPoints_history_length (s : GamificationState) (a : Award) (id now : String)
    (h : (resolveDelta a).isFalsy = false) : (awardPoints s a id now).history.length ≤ 25 := by
  rw [awardPoints_of_truthy s a id now h]
  simp only [List.length_take]
  omega

theorem awardPoints_history_length_le (s : GamificationState) (a : Award) (id now : String)
    (hs : s.history.length ≤ 25) : (awardPoints s a id now).history.length ≤ 25 := by
  cases h : (resolveDelta a).isFalsy
  · exact awardPoints_history_length s a id now h
  · rw [awardPoints_of_falsy s a id now h]
    exact hs

/-- Every engine call keeps a history of at most 25 entries within that bound. -/
theorem apply_history_length_le (s : GamificationState) (t : Transition)
    (hs : s.history.length ≤ 25) : (t.apply s).history.length ≤ 25 := by
  cases t with
  | award reward id now => exact awardPoints_history_length_le s reward id now hs
  | inventoryEvent isNewItem itemName id now =>
    cases isNewItem <;>
      simpa [Transition.apply, registerInventoryEvent] using
        awardPoints_history_length_le s _ id now hs
  | billPaid billName onTime id now =>
    cases onTime
    · simpa [Transition.apply, registerBillPaid] using hs
    · simpa [Transition.apply, registerBillPaid] using
        awardPoints_history_length_le s _ id now hs
  | reminderResponse id now ackTime =>
    simpa [Transition.apply, registerReminderResponse] using
      awardPoints_history_length_le s _ id now hs
  | badges inventory bills => simpa [Transition.apply, evaluateBadges] using hs
  | streak hasIssues todayKey =>
    simp only [Transition.apply, updateStreak]
    split
    · exact hs
    · exact hs

theorem run_history_length_le (steps : List Transition) :
    ∀ s : GamificationState, s.history.length ≤ 25 →
      (run s steps).history.length ≤ 25 := by
  induction steps with
  | nil => intro s hs; exact hs
  | cons t ts ih =>
    intro s hs
    simp only [run, List.foldl_cons]
    exact ih (t.apply s) (apply_history_length_le s t hs)

theorem awardAll_history (calls : List AwardCall) :
    ∀ s : GamificationState, s.history.length ≤ 25 →
      (∀ call ∈ calls, resolveDelta call.award ≠ Delta.number 0) →
      (awardAll s calls).history =
        ((calls.map AwardCall.entry).reverse ++ s.history).take 25 := by
  induction calls with
  | nil =>
    intro s hs _
    simp [awardAll, List.take_of_length_le hs]
  | cons c cs ih =>
    intro s _ h
    have hc : (resolveDelta c.award).isFalsy = false := by
      cases hf : (resolveDelta c.award).isFalsy with
      | false => rfl
      | true => exact absurd ((isFalsy_iff _).1 hf) (h c (by simp))
    have := ih (awardPoints s c.award c.id c.now)
      (awardPoints_history_length s c.award c.id c.now hc) (fun x hx => h x (by simp [hx]))
    simp only [awardAll, List.foldl_cons] at this ⊢
    rw [this, awardPoints_of_truthy _ _ _ _ hc]
    simp only [List.map_cons, List.reverse_cons, List.append_assoc, List.singleton_append]
    exact take_append_take 25 _ _

/-- C4: after more than 25 awards with non-zero delta on the initial state the history has
exactly 25 entries and entry i is the entry written by the (N-i)-th award; from every
state whose history is within the cap of 25, as the history of every state reached from
the initial state is, any award returns a history of at most 25 entries; and an award
with non-zero delta does so from every state whatever. -/
theorem history_cap (calls : List AwardCall) (hN : 25 < calls.length)
    (hnz : ∀ call ∈ calls, resolveDelta call.award ≠ Delta.number 0) :
    (awardAll initialGamificationState calls).history.length = 25 ∧
    (∀ i, i < 25 →
      (awardAll initialGamificationState calls).history.get? i =
        (calls.get? (calls.length - 1 - i)).map AwardCall.entry) ∧
    (∀ (s : GamificationState) (a : Award) (id now : String),
      s.history.length ≤ 25 → (awardPoints s a id now).history.length ≤ 25) ∧
    (∀ steps : List Transition,
      (run initialGamificationState steps).history.length ≤ 25) ∧
    (∀ (s : GamificationState) (a : Award) (id now : String),
      resolveDelta a ≠ Delta.number 0 → (awardPoints s a id now).history.length ≤ 25) := by
  have hh := awardAll_history calls initialGamificationState (by decide) hnz
  have hnil : initialGamificationState.history = [] := rfl
  rw [hnil, List.append_nil] at hh
  refine ⟨?_, ?_, awardPoints_history_length_le,
    fun steps => run_history_length_le steps initialGamificationState (by decide), ?_⟩
  · rw [hh]
    simp only [List.length_take, List.length_reverse, List.length_map]
    omega
  · intro i hi
    rw [hh]
    simp only [List.get?_eq_getElem?]
    rw [List.getElem?_take, if_pos hi, List.getElem?_reverse (by simp; omega)]
    simp
  · intro s a id now h
    apply awardPoints_history_length
    cases hf : (resolveDelta a).isFalsy with
    | false => rfl
    | true => exact absurd ((isFalsy_iff _).1 hf) h

/-- Witness for C4: twenty-six restock awards on the initial state. -/
theorem history_cap_witness :
    (awardAll initialGamificationState
      (List.replicate 26 ⟨⟨"inventoryRestock", none, "restocked", none⟩, "id-1", "t1"⟩)).history.length
      = 25 :=
  (history_cap (List.replicate 26 ⟨⟨"inventoryRestock", none, "restocked", none⟩, "id-1", "t1"⟩)
    (by decide) (by decide)).1

/-! ## Badges -/

theorem mem_setAdd_of_mem (set : List String) (value b : String) (h : b ∈ set) :
    b ∈ setAdd set value := by
  unfold setAdd
  split
  · exact h
  · exact List.mem_append_left _ h

theorem mem_setAdd_self (set : List String) (value : String) : value ∈ setAdd set value := by
  unfold setAdd
  split
  · assumption
  · simp

theorem mem_setAdd (set : List String) (value b : String) :
    b ∈ setAdd set value ↔ b ∈ set ∨ b = value := by
  unfold setAdd
  split
  · constructor
    · exact Or.inl
    · rintro (h | rfl)
      · exact h
      · assumption
  · simp

theorem mem_foldl_setAdd (values : List String) :
    ∀ (acc : List String) (b : String),
      b ∈ values.foldl setAdd acc ↔ b ∈ acc ∨ b ∈ values := by
  induction values with
  | nil => intro acc b; simp
  | cons v vs ih =>
    intro acc b
    simp only [List.foldl_cons, ih, mem_setAdd, List.mem_cons]
    tauto

theorem mem_newSet (values : List String) (b : String) : b ∈ newSet values ↔ b ∈ values := by
  simp [newSet, mem_foldl_setAdd]

/-- C5: every badge name present in the state is present in the badges that
evaluateBadges returns, for every inventory and every bill list. -/
theorem badges_permanent (s : GamificationState) (inventory : List InventoryItem)
    (bills : List Bill) (b : String) (h : b ∈ s.badges) :
    b ∈ (evaluateBadges s inventory bills).badges := by
  have h0 : b ∈ newSet s.badges := (mem_newSet _ _).2 h
  simp only [evaluateBadges]
  repeat' split
  all_goals first
    | exact h0
    | exact mem_setAdd_of_mem _ _ _ h0
    | exact mem_setAdd_of_mem _ _ _ (mem_setAdd_of_mem _ _ _ h0)
    | exact mem_setAdd_of_mem _ _ _ (mem_setAdd_of_mem _ _ _ (mem_setAdd_of_mem _ _ _ h0))

/-- Witness for C5: a badge held by a state with no counters and an empty inventory. -/
theorem badges_permanent_witness :
    "Utility Master" ∈ (evaluateBadges
      { initialGamificationState with badges := ["Utility Master"] } [] []).badges :=
  badges_permanent { initialGamificationState with badges := ["Utility Master"] } [] []
    "Utility Master" (by decide)

/-! ## Streak -/

/-- C6: for a fixed date key, a second updateStreak after a first one changes nothing,
whatever the two hasIssues flags; and a state already evaluated on that date key is
returned unchanged. -/
theorem updateStreak_idempotent (s : GamificationState) (h1 h2 : Bool) (todayKey : String) :
    updateStreak (updateStreak s h1 todayKey) h2 todayKey = updateStreak s h1 todayKey ∧
    (s.streak.lastEvaluatedDate = some todayKey →
      ∀ h : Bool, updateStreak s h todayKey = s) := by
  constructor
  · by_cases hs : s.streak.lastEvaluatedDate = some todayKey
    · simp [updateStreak, hs]
    · simp [updateStreak, hs]
  · intro hs h
    simp [updateStreak, hs]

/-- C7: when the state was last evaluated on another date key (or never), updateStreak
sets current to 0 on issues and to old current + 1 otherwise, best to the maximum of old
best and new current, consecutivePreparedDays to 0 on issues and to old value + 1
otherwise, and lastEvaluatedDate to the date key, leaving every other field alone. -/
theorem updateStreak_effect (s : GamificationState) (hasIssues : Bool) (todayKey : String)
    (h : s.streak.lastEvaluatedDate ≠ some todayKey) :
    (updateStreak s hasIssues todayKey).streak.current
      = (if hasIssues then 0 else s.streak.current + 1) ∧
    (updateStreak s hasIssues todayKey).streak.best
      = max s.streak.best (updateStreak s hasIssues todayKey).streak.current ∧
    (updateStreak s hasIssues todayKey).counters.consecutivePreparedDays
      = (if hasIssues then 0 else s.counters.consecutivePreparedDays + 1) ∧
    (updateStreak s hasIssues todayKey).streak.lastEvaluatedDate = some todayKey ∧
    (updateStreak s hasIssues todayKey).points = s.points ∧
    (updateStreak s hasIssues todayKey).level = s.level ∧
    (updateStreak s hasIssues todayKey).history = s.history ∧
    (updateStreak s hasIssues todayKey).badges = s.badges ∧
    (updateStreak s hasIssues todayKey).lastReminderAcknowledged
      = s.lastReminderAcknowledged ∧
    (updateStreak s hasIssues todayKey).counters.billsPaidOnTime
      = s.counters.billsPaidOnTime ∧
    (updateStreak s hasIssues todayKey).counters.essentialsTracked
      = s.counters.essentialsTracked := by
  cases hasIssues <;> simp [updateStreak, h]

/-- Witness for C7: the first evaluation of the initial state, on a day without issues. -/
theorem updateStreak_effect_witness :
    initialGamificationState.streak.lastEvaluatedDate ≠ some "2024-03-01" ∧
    (updateStreak initialGamificationState false "2024-03-01").streak.current
      = (if false then 0 else initialGamificationState.streak.current + 1) :=
  ⟨by decide, (updateStreak_effect initialGamificationState false "2024-03-01" (by decide)).1⟩

theorem updateStreak_best (s : GamificationState) (hasIssues : Bool) (todayKey : String)
    (h : s.streak.current ≤ s.streak.best) :
    (updateStreak s hasIssues todayKey).streak.best =
      max s.streak.best (updateStreak s hasIssues todayKey).streak.current := by
  by_cases hs : s.streak.lastEvaluatedDate = some todayKey
  · simp [updateStreak, hs, h]
  · cases hasIssues <;> simp [updateStreak, hs]

theorem apply_streak_of_not_streak (s : GamificationState) (t : Transition)
    (h : ∀ hasIssues todayKey, t ≠ Transition.streak hasIssues todayKey) :
    (t.apply s).streak = s.streak := by
  cases t with
  | award reward id now => simp [Transition.apply, awardPoints_streak]
  | inventoryEvent isNewItem itemName id now =>
    cases isNewItem <;> simp [Transition.apply, registerInventoryEvent, awardPoints_streak]
  | billPaid billName onTime id now =>
    cases onTime <;> simp [Transition.apply, registerBillPaid, awardPoints_streak]
  | reminderResponse id now ackTime =>
    simp [Transition.apply, registerReminderResponse, awardPoints_streak]
  | badges inventory bills => simp [Transition.apply, evaluateBadges]
  | streak hasIssues todayKey => exact absurd rfl (h hasIssues todayKey)

/-- One transition from a state with current at most best leaves best equal to the maximum
of the old best and the new current. -/
theorem apply_best (s : GamificationState) (t : Transition)
    (h : s.streak.current ≤ s.streak.best) :
    (t.apply s).streak.best = max s.streak.best (t.apply s).streak.current := by
  cases t with
  | streak hasIssues todayKey => exact updateStreak_best s hasIssues todayKey h
  | award reward id now =>
    rw [apply_streak_of_not_streak s _ (by simp)]; simp [h]
  | inventoryEvent isNewItem itemName id now =>
    rw [apply_streak_of_not_streak s _ (by simp)]; simp [h]
  | billPaid billName onTime id now =>
    rw [apply_streak_of_not_streak s _ (by simp)]; simp [h]
  | reminderResponse id now ackTime =>
    rw [apply_streak_of_not_streak s _ (by simp)]; simp [h]
  | badges inventory bills =>
    rw [apply_streak_of_not_streak s _ (by simp)]; simp [h]

theorem apply_best_ge (s : GamificationState) (t : Transition) :
    s.streak.best ≤ (t.apply s).streak.best := by
  cases t with
  | streak hasIssues todayKey =>
    by_cases hs : s.streak.lastEvaluatedDate = some todayKey
    · simp [Transition.apply, updateStreak, hs]
    · cases hasIssues <;> simp [Transition.apply, updateStreak, hs]
  | award reward id now => rw [apply_streak_of_not_streak s _ (by simp)]
  | inventoryEvent isNewItem itemName id now => rw [apply_streak_of_not_streak s _ (by simp)]
  | billPaid billName onTime id now => rw [apply_streak_of_not_streak s _ (by simp)]
  | reminderResponse id now ackTime => rw [apply_streak_of_not_streak s _ (by simp)]
  | badges inventory bills => rw [apply_streak_of_not_streak s _ (by simp)]

theorem apply_current_le_best (s : GamificationState) (t : Transition)
    (h : s.streak.current ≤ s.streak.best) :
    (t.apply s).streak.current ≤ (t.apply s).streak.best := by
  rw [apply_best s t h]
  exact le_max_right _ _

theorem run_cons (s : GamificationState) (t : Transition) (ts : List Transition) :
    run s (t :: ts) = run (t.apply s) ts := rfl

theorem trace_eq_cons (s : GamificationState) (steps : List Transition) :
    ∃ rest, trace s steps = s :: rest := by
  cases steps with
  | nil => exact ⟨[], rfl⟩
  | cons t ts => exact ⟨_, rfl⟩

theorem run_best_eq_maxCurrent (steps : List Transition) :
    ∀ s : GamificationState, s.streak.current ≤ s.streak.best →
      (run s steps).streak.current ≤ (run s steps).streak.best ∧
      (run s steps).streak.best = maxCurrent s.streak.best (trace s steps) := by
  induction steps with
  | nil =>
    intro s h
    simp [run, trace, maxCurrent, h]
  | cons t ts ih =>
    intro s h
    have h1 := apply_current_le_best s t h
    obtain ⟨ihc, ihb⟩ := ih (t.apply s) h1
    rw [run_cons]
    refine ⟨ihc, ?_⟩
    rw [ihb]
    obtain ⟨rest, hrest⟩ := trace_eq_cons (t.apply s) ts
    simp only [trace, maxCurrent, List.foldl_cons, hrest]
    rw [max_eq_left h, max_eq_left h1, ← apply_best s t h]

/-- C8: in every state reachable from the initial state by engine transitions, best is at
least current and equals the largest current among the states visited so far; and a
transition from any state never lowers best. -/
theorem streak_best_running_max (steps : List Transition) :
    (run initialGamificationState steps).streak.current
      ≤ (run initialGamificationState steps).streak.best ∧
    (∀ (s : GamificationState) (t : Transition), s.streak.best ≤ (t.apply s).streak.best) ∧
    (run initialGamificationState steps).streak.best
      = maxCurrent 0 (trace initialGamificationState steps) := by
  obtain ⟨h1, h2⟩ := run_best_eq_maxCurrent steps initialGamificationState (by decide)
  exact ⟨h1, apply_best_ge, h2⟩

/-! ## Levels -/

theorem apply_level (s : GamificationState) (t : Transition)
    (h : s.level = getLevelForPointsValue s.points) :
    (t.apply s).level = getLevelForPointsValue (t.apply s).points := by
  cases t with
  | award reward id now => exact awardPoints_level s reward id now h
  | inventoryEvent isNewItem itemName id now =>
    cases isNewItem <;>
      simpa [Transition.apply, registerInventoryEvent] using awardPoints_level s _ id now h
  | billPaid billName onTime id now =>
    cases onTime
    · simpa [Transition.apply, registerBillPaid] using h
    · simpa [Transition.apply, registerBillPaid] using awardPoints_level s _ id now h
  | reminderResponse id now ackTime =>
    simpa [Transition.apply, registerReminderResponse] using awardPoints_level s _ id now h
  | badges inventory bills => simpa [Transition.apply, evaluateBadges] using h
  | streak hasIssues todayKey =>
    by_cases hs : s.streak.lastEvaluatedDate = some todayKey
    · simpa [Transition.apply, updateStreak, hs] using h
    · simpa [Transition.apply, updateStreak, hs] using h

/-- C9: the initial state has points 0 and level Bronze Caretaker, its level is the level
of its points, and every transition from a state whose level is the level of its points
returns a state whose level is the level of its points; the level of the points is what
getLevelForPoints returns on the stored value, a number or not. -/
theorem level_never_stale (s : GamificationState) (t : Transition)
    (h : s.level = getLevelForPointsValue s.points) :
    initialGamificationState.points = PointsValue.number 0 ∧
    initialGamificationState.level = "Bronze Caretaker" ∧
    initialGamificationState.level = getLevelForPoints 0 ∧
    initialGamificationState.level
      = getLevelForPointsValue initialGamificationState.points ∧
    (t.apply s).level = getLevelForPointsValue (t.apply s).points ∧
    (∀ n : Int, (t.apply s).points = PointsValue.number n →
      (t.apply s).level = getLevelForPoints n) :=
  ⟨rfl, rfl, by decide, by decide, apply_level s t h,
    fun n hn => by rw [apply_level s t h, hn]; rfl⟩

/-- Witness for C9: an award of 200 points on the initial state. -/
theorem level_never_stale_witness :
    initialGamificationState.level
      = getLevelForPointsValue initialGamificationState.points ∧
    ((Transition.award ⟨"bonus", some 200, "gift", none⟩ "id-1" "t1").apply
      initialGamificationState).level = "Silver Steward" :=
  ⟨by decide,
   (level_never_stale initialGamificationState
      (Transition.award ⟨"bonus", some 200, "gift", none⟩ "id-1" "t1")
      (by decide)).2.2.2.2.1.trans (by decide)⟩

theorem getLevelForPoints_eq (points : Int) :
    getLevelForPoints points =
      if 900 ≤ points then "Platinum Protector"
      else if 500 ≤ points then "Gold Guardian"
      else if 200 ≤ points then "Silver Steward"
      else "Bronze Caretaker" := by
  simp only [getLevelForPoints, LEVELS, List.reverse_cons, List.reverse_nil, List.nil_append,
    List.cons_append, List.find?, firstLevel, List.get]
  by_cases h1 : 900 ≤ points
  · simp [h1]
  · by_cases h2 : 500 ≤ points
    · simp [h1, h2]
    · by_cases h3 : 200 ≤ points
      · simp [h1, h2, h3]
      · by_cases h4 : 0 ≤ points
        · simp [h1, h2, h3, h4]
        · simp [h1, h2, h3, h4]

theorem getLevelProgress_label (points : Int) :
    (getLevelProgress points).label =
      if 0 ≤ points ∧ points < 200 then "Bronze Caretaker"
      else if 200 ≤ points ∧ points < 500 then "Silver Steward"
      else if 500 ≤ points ∧ points < 900 then "Gold Guardian"
      else "Platinum Protector" := by
  unfold getLevelProgress
  simp only []
  split <;>
  · dsimp only
    simp only [LEVELS, List.enum, List.enumFrom, List.find?, List.get?, lastLevel, List.get]
    by_cases h0 : 0 ≤ points
    · by_cases h200 : points < 200
      · simp [h0, h200]
      · have g200 : 200 ≤ points := by omega
        by_cases h500 : points < 500
        · simp [h0, h200, g200, h500]
        · have g500 : 500 ≤ points := by omega
          by_cases h900 : points < 900
          · simp [h0, h200, g200, h500, g500, h900]
          · simp [h0, h200, g200, h500, g500, h900]
    · have l200 : ¬ 200 ≤ points := by omega
      have l500 : ¬ 500 ≤ points := by omega
      simp [h0, l200, l500]

/-- C10 (as stated, refuted): at the point total -1 getLevelForPoints answers Bronze
Caretaker while getLevelProgress labels the total Platinum Protector. -/
theorem level_label_mismatch_negative :
    getLevelForPoints (-1) ≠ (getLevelProgress (-1)).label := by
  decide

/-- C10 (amended): for every non-negative integer point total, getLevelForPoints equals
the label that getLevelProgress returns. -/
theorem level_label_consistent (points : Int) (h : 0 ≤ points) :
    getLevelForPoints points = (getLevelProgress points).label := by
  rw [getLevelForPoints_eq, getLevelProgress_label]
  by_cases h200 : points < 200
  · have a : ¬ 900 ≤ points := by omega
    have b : ¬ 500 ≤ points := by omega
    have c : ¬ 200 ≤ points := by omega
    simp [h, h200, a, b, c]
  · have g200 : 200 ≤ points := by omega
    by_cases h500 : points < 500
    · have a : ¬ 900 ≤ points := by omega
      have b : ¬ 500 ≤ points := by omega
      simp [h, h200, g200, h500, a, b]
    · have g500 : 500 ≤ points := by omega
      by_cases h900 : points < 900
      · have a : ¬ 900 ≤ points := by omega
        simp [h, h200, g200, h500, g500, h900, a]
      · have a : 900 ≤ points := by omega
        simp [h, h200, g200, h500, g500, h900, a]

/-- Witness for C10: the point total 250. -/
theorem level_label_consistent_witness :
    (0 : Int) ≤ 250 ∧ getLevelForPoints 250 = (getLevelProgress 250).label :=
  ⟨by decide, level_label_consistent 250 (by decide)⟩

/-! ## Level table -/

theorem getLevelProgress_eq (points : Int) :
    getLevelProgress points =
      if 0 ≤ points ∧ points < 200 then
        { label := "Bronze Caretaker"
          progress := JsNumber.min (JsNumber.fin 100) (JsNumber.round (JsNumber.mul
            (JsNumber.div (JsNumber.fin (points - 0 : Int)) (JsNumber.fin (200 - 0 : Int)))
            (JsNumber.fin 100)))
          nextLabel := "Silver Steward", nextThreshold := some 200 }
      else if 200 ≤ points ∧ points < 500 then
        { label := "Silver Steward"
          progress := JsNumber.min (JsNumber.fin 100) (JsNumber.round (JsNumber.mul
            (JsNumber.div (JsNumber.fin (points - 200 : Int)) (JsNumber.fin (500 - 200 : Int)))
            (JsNumber.fin 100)))
          nextLabel := "Gold Guardian", nextThreshold := some 500 }
      else if 500 ≤ points ∧ points < 900 then
        { label := "Gold Guardian"
          progress := JsNumber.min (JsNumber.fin 100) (JsNumber.round (JsNumber.mul
            (JsNumber.div (JsNumber.fin (points - 500 : Int)) (JsNumber.fin (900 - 500 : Int)))
            (JsNumber.fin 100)))
          nextLabel := "Platinum Protector", nextThreshold := some 900 }
      else
        { label := "Platinum Protector", progress := JsNumber.fin 100,
          nextLabel := "Max level", nextThreshold := none } := by
  unfold getLevelProgress
  by_cases h0 : 0 ≤ points
  · by_cases h200 : points < 200
    · simp [LEVELS, List.enum, List.enumFrom, List.find?, lastLevel, h0, h200]
    · have g200 : 200 ≤ points := by omega
      by_cases h500 : points < 500
      · simp [LEVELS, List.enum, List.enumFrom, List.find?, lastLevel, h0, h200, g200, h500]
      · have g500 : 500 ≤ points := by omega
        by_cases h900 : points < 900
        · simp [LEVELS, List.enum, List.enumFrom, List.find?, lastLevel, h0, h200, g200, h500,
            g500, h900]
        · simp [LEVELS, List.enum, List.enumFrom, List.find?, lastLevel, h0, h200, g200, h500,
            g500, h900]
  · have l200 : ¬ 200 ≤ points := by omega
    have l500 : ¬ 500 ≤ points := by omega
    simp [LEVELS, List.enum, List.enumFrom, List.find?, lastLevel, h0, l200, l500]

/-- C11: for every non-negative point total getLevelForPoints names the highest tier whose
minimum is at most the total: Bronze Caretaker below 200, Silver Steward from 200 up to
499, Gold Guardian from 500 up to 899 and Platinum Protector from 900 on. -/
theorem getLevelForPoints_tiers (points : Int) (h : 0 ≤ points) :
    (points < 200 → getLevelForPoints points = "Bronze Caretaker") ∧
    (200 ≤ points → points < 500 → getLevelForPoints points = "Silver Steward") ∧
    (500 ≤ points → points < 900 → getLevelForPoints points = "Gold Guardian") ∧
    (900 ≤ points → getLevelForPoints points = "Platinum Protector") ∧
    (∃ tier ∈ LEVELS, tier.name = getLevelForPoints points ∧ tier.min ≤ points ∧
      ∀ other ∈ LEVELS, other.min ≤ points → other.min ≤ tier.min) := by
  rw [getLevelForPoints_eq]
  refine ⟨fun h1 => ?_, fun h1 h2 => ?_, fun h1 h2 => ?_, fun h1 => ?_, ?_⟩
  · have a : ¬ 900 ≤ points := by omega
    have b : ¬ 500 ≤ points := by omega
    have c : ¬ 200 ≤ points := by omega
    simp [a, b, c]
  · have a : ¬ 900 ≤ points := by omega
    have b : ¬ 500 ≤ points := by omega
    simp [a, b, h1]
  · have a : ¬ 900 ≤ points := by omega
    simp [a, h1]
  · simp [h1]
  · by_cases h900 : 900 ≤ points
    · refine ⟨⟨"Platinum Protector", 900⟩, by simp [LEVELS], by simp [h900], h900, ?_⟩
      intro other ho _
      simp only [LEVELS, List.mem_cons, List.mem_singleton, List.not_mem_nil, or_false] at ho
      rcases ho with rfl | rfl | rfl | rfl <;> simp
    · by_cases h500 : 500 ≤ points
      · refine ⟨⟨"Gold Guardian", 500⟩, by simp [LEVELS], by simp [h900, h500], h500, ?_⟩
        intro other ho hle
        simp only [LEVELS, List.mem_cons, List.mem_singleton, List.not_mem_nil, or_false] at ho
        rcases ho with rfl | rfl | rfl | rfl <;> simp at hle ⊢
        omega
      · by_cases h200 : 200 ≤ points
        · refine ⟨⟨"Silver Steward", 200⟩, by simp [LEVELS], by simp [h900, h500, h200],
            h200, ?_⟩
          intro other ho hle
          simp only [LEVELS, List.mem_cons, List.mem_singleton, List.not_mem_nil,
            or_false] at ho
          rcases ho with rfl | rfl | rfl | rfl <;> simp at hle ⊢ <;> omega
        · refine ⟨⟨"Bronze Caretaker", 0⟩, by simp [LEVELS], by simp [h900, h500, h200],
            h, ?_⟩
          intro other ho hle
          simp only [LEVELS, List.mem_cons, List.mem_singleton, List.not_mem_nil,
            or_false] at ho
          rcases ho with rfl | rfl | rfl | rfl <;> simp at hle ⊢ <;> omega

/-- Witness for C11: the point total 500. -/
theorem getLevelForPoints_tiers_witness :
    (0 : Int) ≤ 500 ∧ getLevelForPoints 500 = "Gold Guardian" :=
  ⟨by decide, (getLevelForPoints_tiers 500 (by decide)).2.2.1 (by decide) (by decide)⟩

theorem mathRound_eq_floor (x : ℚ) : mathRound x = ⌊x + 1 / 2⌋ := by
  unfold mathRound
  congr 1
  rw [Rat.mkRat_eq_div]
  have hd : (x.den : ℚ) ≠ 0 := by exact_mod_cast x.den_nz
  conv_rhs => rw [← Rat.num_div_den x]
  push_cast
  field_simp
  ring

theorem exactProgress_eq (points min nextMin : Int) (h : min < nextMin) :
    exactProgress points min nextMin =
      Min.min 100 ⌊(100 * ((points : ℚ) - min)) / ((nextMin : ℚ) - min) + 1 / 2⌋ := by
  unfold exactProgress
  rw [mathRound_eq_floor, Rat.mkRat_eq_div]
  have : (((nextMin - min).toNat : Int) : ℚ) = (nextMin : ℚ) - min := by
    rw [Int.toNat_of_nonneg (by omega)]
    push_cast
    ring
  push_cast
  rw [← this]
  norm_cast

set_option maxRecDepth 100000 in
theorem progress_check_bronze : ∀ n : Nat, n < 200 →
    JsNumber.min (JsNumber.fin 100) (JsNumber.round (JsNumber.mul
      (JsNumber.div (JsNumber.fin (((0 + n : Int) - 0 : Int))) (JsNumber.fin (200 - 0 : Int)))
      (JsNumber.fin 100)))
    = JsNumber.fin ((exactProgress (0 + n) 0 200
        - if (0 + n : Int) ∈ progressExceptions then 1 else 0 : Int)) := by
  decide!

set_option maxRecDepth 100000 in
theorem progress_check_silver : ∀ n : Nat, n < 300 →
    JsNumber.min (JsNumber.fin 100) (JsNumber.round (JsNumber.mul
      (JsNumber.div (JsNumber.fin (((200 + n : Int) - 200 : Int)))
        (JsNumber.fin (500 - 200 : Int)))
      (JsNumber.fin 100)))
    = JsNumber.fin ((exactProgress (200 + n) 200 500
        - if (200 + n : Int) ∈ progressExceptions then 1 else 0 : Int)) := by
  decide!

set_option maxRecDepth 100000 in
theorem progress_check_gold : ∀ n : Nat, n < 400 →
    JsNumber.min (JsNumber.fin 100) (JsNumber.round (JsNumber.mul
      (JsNumber.div (JsNumber.fin (((500 + n : Int) - 500 : Int)))
        (JsNumber.fin (900 - 500 : Int)))
      (JsNumber.fin 100)))
    = JsNumber.fin ((exactProgress (500 + n) 500 900
        - if (500 + n : Int) ∈ progressExceptions then 1 else 0 : Int)) := by
  decide!

theorem levels_zip_tail :
    LEVELS.zip LEVELS.tail =
      [(⟨"Bronze Caretaker", 0⟩, ⟨"Silver Steward", 200⟩),
       (⟨"Silver Steward", 200⟩, ⟨"Gold Guardian", 500⟩),
       (⟨"Gold Guardian", 500⟩, ⟨"Platinum Protector", 900⟩)] := by
  decide

/-- C12 (as stated, refuted): at the point total 29 the source computes the progress 14
(the quotient 29/200 and its product with 100 are each rounded to binary64, which gives
14.499999999999998), while min(100, round(100 * 29 / 200)) is 15. -/
theorem progress_off_exact_at_29 :
    (getLevelProgress 29).progress = JsNumber.fin 14 ∧ exactProgress 29 0 200 = 15 := by
  decide

/-- C12 (amended): for a point total from 0 up to 899, getLevelProgress returns the name
of the tier whose range holds the total, the name and the minimum of the following tier,
and the progress min(100, Math.round(((points - min) / (nextMin - min)) * 100)) in which
the quotient and the product are rounded to binary64; that progress is the exactly
computed min(100, round(100 * (points - min) / (nextMin - min))) at every total except
29, 57, 113, 115, 558, 614, 726 and 730, where it is one less.  From 900 on it returns
Platinum Protector, progress 100, "Max level" and no next threshold. -/
theorem getLevelProgress_tiers (points : Int) (h0 : 0 ≤ points) :
    (∀ cur next : Level, (cur, next) ∈ LEVELS.zip LEVELS.tail →
      cur.min ≤ points → points < next.min →
      (getLevelProgress points).label = cur.name ∧
      (getLevelProgress points).nextLabel = next.name ∧
      (getLevelProgress points).nextThreshold = some next.min ∧
      (getLevelProgress points).progress =
        JsNumber.min (JsNumber.fin 100) (JsNumber.round (JsNumber.mul
          (JsNumber.div (JsNumber.fin (points - cur.min : Int))
            (JsNumber.fin (next.min - cur.min : Int)))
          (JsNumber.fin 100))) ∧
      (getLevelProgress points).progress =
        JsNumber.fin ((exactProgress points cur.min next.min
          - if points ∈ progressExceptions then 1 else 0 : Int))) ∧
    (points < 900 → ∃ cur next : Level, (cur, next) ∈ LEVELS.zip LEVELS.tail ∧
      cur.min ≤ points ∧ points < next.min) ∧
    (900 ≤ points → getLevelProgress points =
      { label := "Platinum Protector", progress := JsNumber.fin 100,
        nextLabel := "Max level", nextThreshold := none }) := by
  rw [levels_zip_tail, getLevelProgress_eq]
  refine ⟨?_, ?_, ?_⟩
  · intro cur next hmem hlo hhi
    simp only [List.mem_cons, List.mem_singleton, List.not_mem_nil, or_false,
      Prod.mk.injEq] at hmem
    rcases hmem with ⟨rfl, rfl⟩ | ⟨rfl, rfl⟩ | ⟨rfl, rfl⟩
    · simp only [] at hlo hhi
      obtain ⟨n, rfl⟩ : ∃ n : Nat, points = 0 + n := ⟨points.toNat, by omega⟩
      have hn : n < 200 := by omega
      rw [if_pos ⟨hlo, hhi⟩]
      exact ⟨rfl, rfl, rfl, rfl, progress_check_bronze n hn⟩
    · simp only [] at hlo hhi
      obtain ⟨n, rfl⟩ : ∃ n : Nat, points = 200 + n := ⟨(points - 200).toNat, by omega⟩
      have hn : n < 300 := by omega
      rw [if_neg (by omega), if_pos ⟨hlo, hhi⟩]
      exact ⟨rfl, rfl, rfl, rfl, progress_check_silver n hn⟩
    · simp only [] at hlo hhi
      obtain ⟨n, rfl⟩ : ∃ n : Nat, points = 500 + n := ⟨(points - 500).toNat, by omega⟩
      have hn : n < 400 := by omega
      rw [if_neg (by omega), if_neg (by omega), if_pos ⟨hlo, hhi⟩]
      exact ⟨rfl, rfl, rfl, rfl, progress_check_gold n hn⟩
  · intro h900
    by_cases h200 : points < 200
    · exact ⟨⟨"Bronze Caretaker", 0⟩, ⟨"Silver Steward", 200⟩, by simp, h0, h200⟩
    · by_cases h500 : points < 500
      · exact ⟨⟨"Silver Steward", 200⟩, ⟨"Gold Guardian", 500⟩, by simp, by simpa using h200,
          h500⟩
      · exact ⟨⟨"Gold Guardian", 500⟩, ⟨"Platinum Protector", 900⟩, by simp,
          by simpa using h500, h900⟩
  · intro h900
    rw [if_neg (by omega), if_neg (by omega), if_neg (by omega)]

/-- Witness for C12: the point total 250, in the Silver Steward range. -/
theorem getLevelProgress_tiers_witness :
    (0 : Int) ≤ 250 ∧ (getLevelProgress 250).label = "Silver Steward" ∧
    (getLevelProgress 250).progress = JsNumber.fin 17 :=
  ⟨by decide,
   ((getLevelProgress_tiers 250 (by decide)).1 ⟨"Silver Steward", 200⟩ ⟨"Gold Guardian", 500⟩
      (by decide) (by decide) (by decide)).1,
   by decide⟩

/-! ## Event registration -/

theorem awardPoints_lastReminderAcknowledged (s : GamificationState) (a : Award)
    (id now : String) :
    (awardPoints s a id now).lastReminderAcknowledged = s.lastReminderAcknowledged := by
  cases h : (resolveDelta a).isFalsy
  · simp [awardPoints_of_truthy, h]
  · simp [awardPoints_of_falsy, h]

theorem awardPoints_history (s : GamificationState) (a : Award) (id now : String)
    (h : (resolveDelta a).isFalsy = false) :
    (awardPoints s a id now).history = (AwardCall.entry ⟨a, id, now⟩ :: s.history).take 25 := by
  simp [awardPoints_of_truthy, h]

/-- C13: a restock adds exactly 6 points, puts one inventoryRestock entry in front of the
history (cut to 25 entries) and leaves essentialsTracked alone; a new item adds exactly 10
points, puts one inventoryAdd entry in front and raises essentialsTracked by 1.  The other
counters, the streak and the badges are unchanged in both cases.  The stored total is
points + 6 or points + 10, which on a numeric total n is the number n + 6 or n + 10. -/
theorem registerInventoryEvent_effect (s : GamificationState) (itemName id now : String) :
    ((registerInventoryEvent s false itemName id now).points
        = s.points.plus (Delta.number 6) ∧
     (∀ n : Int, s.points = PointsValue.number n →
        (registerInventoryEvent s false itemName id now).points
          = PointsValue.number (n + 6)) ∧
     (registerInventoryEvent s false itemName id now).history =
        (({ id := id, type := "inventoryRestock", points := Delta.number 6,
            message := "🔄 Earned 6 points for restocking " ++ itemName ++ ".",
            metadata := some [("itemName", itemName)], timestamp := now } : HistoryEntry)
          :: s.history).take 25 ∧
     (registerInventoryEvent s false itemName id now).counters = s.counters ∧
     (registerInventoryEvent s false itemName id now).streak = s.streak ∧
     (registerInventoryEvent s false itemName id now).badges = s.badges) ∧
    ((registerInventoryEvent s true itemName id now).points
        = s.points.plus (Delta.number 10) ∧
     (∀ n : Int, s.points = PointsValue.number n →
        (registerInventoryEvent s true itemName id now).points
          = PointsValue.number (n + 10)) ∧
     (registerInventoryEvent s true itemName id now).history =
        (({ id := id, type := "inventoryAdd", points := Delta.number 10,
            message := "✨ Earned 10 points for logging " ++ itemName ++ ".",
            metadata := some [("itemName", itemName)], timestamp := now } : HistoryEntry)
          :: s.history).take 25 ∧
     (registerInventoryEvent s true itemName id now).counters.essentialsTracked
        = s.counters.essentialsTracked + 1 ∧
     (registerInventoryEvent s true itemName id now).counters.billsPaidOnTime
        = s.counters.billsPaidOnTime ∧
     (registerInventoryEvent s true itemName id now).counters.consecutivePreparedDays
        = s.counters.consecutivePreparedDays ∧
     (registerInventoryEvent s true itemName id now).streak = s.streak ∧
     (registerInventoryEvent s true itemName id now).badges = s.badges) := by
  constructor
  · refine ⟨?_, ?_, ?_⟩
    · simp [registerInventoryEvent, awardPoints_of_truthy, resolveDelta_inventoryRestock,
        Delta.isFalsy]
    · intro n hn
      simp [registerInventoryEvent, awardPoints_of_truthy, resolveDelta_inventoryRestock,
        Delta.isFalsy, hn, plus_number]
    · simp [registerInventoryEvent, awardPoints_of_truthy, resolveDelta_inventoryRestock,
        Delta.isFalsy, AwardCall.entry]
  · refine ⟨?_, ?_, ?_⟩
    · simp [registerInventoryEvent, awardPoints_of_truthy, resolveDelta_inventoryAdd,
        Delta.isFalsy]
    · intro n hn
      simp [registerInventoryEvent, awardPoints_of_truthy, resolveDelta_inventoryAdd,
        Delta.isFalsy, hn, plus_number]
    · simp [registerInventoryEvent, awardPoints_of_truthy, resolveDelta_inventoryAdd,
        Delta.isFalsy, AwardCall.entry]

/-- C14: a late payment returns the input state, so points, history and the on-time
counter are those of the input. -/
theorem registerBillPaid_late (s : GamificationState) (billName id now : String) :
    registerBillPaid s billName false id now = s ∧
    (registerBillPaid s billName false id now).points = s.points ∧
    (registerBillPaid s billName false id now).history = s.history ∧
    (registerBillPaid s billName false id now).counters.billsPaidOnTime
      = s.counters.billsPaidOnTime := by
  simp [registerBillPaid]

theorem registerBillPaid_onTime_counter (s : GamificationState) (billName id now : String) :
    (registerBillPaid s billName true id now).counters.billsPaidOnTime
      = s.counters.billsPaidOnTime + 1 := by
  simp [registerBillPaid, awardPoints_counters]

theorem payAllOnTime_totals (calls : List PaymentCall) :
    ∀ s : GamificationState,
      (payAllOnTime s calls).points
        = calls.foldl (fun total _ => total.plus (Delta.number 15)) s.points ∧
      (∀ n : Int, s.points = PointsValue.number n →
        (payAllOnTime s calls).points = PointsValue.number (n + 15 * calls.length)) ∧
      (payAllOnTime s calls).counters.billsPaidOnTime
        = s.counters.billsPaidOnTime + calls.length := by
  induction calls with
  | nil => intro s; simp [payAllOnTime]
  | cons c cs ih =>
    intro s
    obtain ⟨h1, h2, h3⟩ := ih (registerBillPaid s c.billName true c.id c.now)
    simp only [payAllOnTime, List.foldl_cons] at h1 h2 h3 ⊢
    refine ⟨?_, ?_, ?_⟩
    · rw [h1, registerBillPaid_points]
      simp only [if_true]
    · intro n hn
      rw [h2 (n + 15) (by rw [registerBillPaid_points, hn]; rfl)]
      simp only [List.length_cons]
      push_cast
      congr 1
      ring
    · rw [h3, registerBillPaid_onTime_counter]
      simp only [List.length_cons]
      push_cast
      ring

theorem utilityMaster_of_counter (s : GamificationState) (inventory : List InventoryItem)
    (bills : List Bill) (h : 3 ≤ s.counters.billsPaidOnTime) :
    "Utility Master" ∈ (evaluateBadges s inventory bills).badges := by
  have h0 : "Utility Master" ∈ setAdd (newSet s.badges) "Utility Master" :=
    mem_setAdd_self _ _
  simp only [evaluateBadges, ge_iff_le, h, if_true]
  repeat' split
  all_goals first
    | exact h0
    | exact mem_setAdd_of_mem _ _ _ h0
    | exact mem_setAdd_of_mem _ _ _ (mem_setAdd_of_mem _ _ _ h0)

/-- C15: n on-time payments in sequence add 15 n points and n to the on-time counter, from
every state; three of them on the initial state leave the counter at 3, and evaluateBadges
on the result returns badges that contain Utility Master.  The stored total is the old
one with 15 added n times, which on a numeric total m is the number m + 15 n. -/
theorem payAllOnTime_effect (s : GamificationState) (calls : List PaymentCall) :
    (payAllOnTime s calls).points
      = calls.foldl (fun total _ => total.plus (Delta.number 15)) s.points ∧
    (∀ m : Int, s.points = PointsValue.number m →
      (payAllOnTime s calls).points = PointsValue.number (m + 15 * calls.length)) ∧
    (payAllOnTime s calls).counters.billsPaidOnTime
      = s.counters.billsPaidOnTime + calls.length ∧
    (∀ c1 c2 c3 : PaymentCall,
      (payAllOnTime initialGamificationState [c1, c2, c3]).counters.billsPaidOnTime = 3 ∧
      ∀ (inventory : List InventoryItem) (bills : List Bill),
        "Utility Master" ∈
          (evaluateBadges (payAllOnTime initialGamificationState [c1, c2, c3])
            inventory bills).badges) := by
  refine ⟨(payAllOnTime_totals calls s).1, (payAllOnTime_totals calls s).2.1,
    (payAllOnTime_totals calls s).2.2, ?_⟩
  intro c1 c2 c3
  have h := (payAllOnTime_totals [c1, c2, c3] initialGamificationState).2.2
  have h3 : (payAllOnTime initialGamificationState [c1, c2, c3]).counters.billsPaidOnTime
      = 3 := by
    rw [h]; rfl
  exact ⟨h3, fun inventory bills => utilityMaster_of_counter _ inventory bills (by omega)⟩

/-- C16: registerReminderResponse adds exactly 8 points, puts one reminderResponse entry
in front of the history (cut to 25 entries) and sets lastReminderAcknowledged to the
timestamp read after the award; counters, streak and badges are unchanged.  The stored
total is points + 8, which on a numeric total n is the number n + 8. -/
theorem registerReminderResponse_effect (s : GamificationState) (id now ackTime : String) :
    (registerReminderResponse s id now ackTime).points = s.points.plus (Delta.number 8) ∧
    (∀ n : Int, s.points = PointsValue.number n →
      (registerReminderResponse s id now ackTime).points = PointsValue.number (n + 8)) ∧
    (registerReminderResponse s id now ackTime).history =
      (({ id := id, type := "reminderResponse", points := Delta.number 8,
          message := "🎯 Earned 8 points for acting on a reminder.",
          metadata := none, timestamp := now } : HistoryEntry) :: s.history).take 25 ∧
    (registerReminderResponse s id now ackTime).lastReminderAcknowledged = some ackTime ∧
    (registerReminderResponse s id now ackTime).counters = s.counters ∧
    (registerReminderResponse s id now ackTime).streak = s.streak ∧
    (registerReminderResponse s id now ackTime).badges = s.badges := by
  refine ⟨?_, ?_, ?_⟩
  · simp [registerReminderResponse, awardPoints_of_truthy, resolveDelta_reminderResponse,
      Delta.isFalsy]
  · intro n hn
    simp [registerReminderResponse, awardPoints_of_truthy, resolveDelta_reminderResponse,
      Delta.isFalsy, hn, plus_number]
  · simp [registerReminderResponse, awardPoints_of_truthy, resolveDelta_reminderResponse,
      Delta.isFalsy, AwardCall.entry]

/-! ## Badge rules -/

/-- Membership in the badges that `evaluateBadges` returns: an old badge, or one of the
three names with its rule satisfied. -/
theorem evaluateBadges_mem (s : GamificationState) (inventory : List InventoryItem)
    (bills : List Bill) (b : String) :
    b ∈ (evaluateBadges s inventory bills).badges ↔
      b ∈ s.badges ∨
      (b = "Utility Master" ∧ 3 ≤ s.counters.billsPaidOnTime) ∨
      (b = "Preparedness Pro" ∧ inventory ≠ [] ∧
        ∀ item ∈ getLowInventoryItems inventory,
          JsNumber.ge (recomputedDays item) (JsNumber.fin 2) = true) ∨
      (b = "Resilient Household" ∧ 10 ≤ s.counters.essentialsTracked) := by
  have hall : ((getLowInventoryItems inventory).all (fun item =>
        JsNumber.ge (if JsNumber.gt item.dailyUsage (JsNumber.fin 0)
          then JsNumber.div item.quantity item.dailyUsage else JsNumber.posInf)
          (JsNumber.fin 2)) && decide (inventory.length > 0)) = true ↔
      (inventory ≠ [] ∧ ∀ item ∈ getLowInventoryItems inventory,
          JsNumber.ge (recomputedDays item) (JsNumber.fin 2) = true) := by
    simp only [Bool.and_eq_true, List.all_eq_true, decide_eq_true_eq, recomputedDays,
      List.length_pos, gt_iff_lt]
    tauto
  simp only [evaluateBadges, ge_iff_le]
  rw [← hall]
  split_ifs <;> simp only [mem_setAdd, mem_newSet] <;> tauto

/-- C17: the returned badges contain Utility Master exactly when the state already held it
or the on-time counter is at least 3, and contain Resilient Household exactly when the
state already held it or essentialsTracked is at least 10. -/
theorem evaluateBadges_counter_badges (s : GamificationState)
    (inventory : List InventoryItem) (bills : List Bill) :
    ("Utility Master" ∈ (evaluateBadges s inventory bills).badges ↔
      "Utility Master" ∈ s.badges ∨ 3 ≤ s.counters.billsPaidOnTime) ∧
    ("Resilient Household" ∈ (evaluateBadges s inventory bills).badges ↔
      "Resilient Household" ∈ s.badges ∨ 10 ≤ s.counters.essentialsTracked) := by
  constructor
  · rw [evaluateBadges_mem]
    have h1 : ("Utility Master" : String) ≠ "Preparedness Pro" := by decide
    have h2 : ("Utility Master" : String) ≠ "Resilient Household" := by decide
    simp [h1, h2]
  · rw [evaluateBadges_mem]
    have h1 : ("Resilient Household" : String) ≠ "Preparedness Pro" := by decide
    have h2 : ("Resilient Household" : String) ≠ "Utility Master" := by decide
    simp [h1, h2]

/-- A low item with a finite quantity of at least 0 has a usage above 0, so the days that
`evaluateBadges` recomputes for it are the plain quotient. -/
theorem recomputedDays_of_low (item : InventoryItem)
    (hq : item.quantity.isFinite = true ∧ JsNumber.ge item.quantity (JsNumber.fin 0) = true)
    (hlow : JsNumber.lt (calculateDaysLeft item.quantity item.dailyUsage)
      LOW_ITEM_THRESHOLD_DAYS = true) :
    recomputedDays item = JsNumber.div item.quantity item.dailyUsage := by
  obtain ⟨hfin, hge⟩ := hq
  unfold recomputedDays
  cases hu : item.dailyUsage with
  | fin u =>
    by_cases hu0 : 0 < u
    · simp [JsNumber.gt, JsNumber.lt, hu0]
    · exfalso
      cases hqq : item.quantity with
      | fin q =>
        rw [hqq] at hge
        have hq0 : 0 ≤ q := by simpa [JsNumber.ge, JsNumber.le] using hge
        have hu1 : u ≤ 0 := not_lt.1 hu0
        rw [hu, hqq] at hlow
        simp [calculateDaysLeft, JsNumber.isFinite, JsNumber.lt, JsNumber.le,
          LOW_ITEM_THRESHOLD_DAYS, hq0, hu1, not_lt.2 hq0] at hlow
      | posInf => rw [hqq] at hfin; simp [JsNumber.isFinite] at hfin
      | negInf => rw [hqq] at hfin; simp [JsNumber.isFinite] at hfin
      | nan => rw [hqq] at hfin; simp [JsNumber.isFinite] at hfin
  | posInf =>
    exfalso
    cases hqq : item.quantity with
    | fin q =>
      rw [hqq] at hge
      have hq0 : 0 ≤ q := by simpa [JsNumber.ge, JsNumber.le] using hge
      rw [hu, hqq] at hlow
      simp [calculateDaysLeft, JsNumber.isFinite, JsNumber.lt, JsNumber.le,
        LOW_ITEM_THRESHOLD_DAYS, hq0, not_lt.2 hq0] at hlow
    | posInf => rw [hqq] at hfin; simp [JsNumber.isFinite] at hfin
    | negInf => rw [hqq] at hfin; simp [JsNumber.isFinite] at hfin
    | nan => rw [hqq] at hfin; simp [JsNumber.isFinite] at hfin
  | negInf =>
    exfalso
    cases hqq : item.quantity with
    | fin q =>
      rw [hqq] at hge
      have hq0 : 0 ≤ q := by simpa [JsNumber.ge, JsNumber.le] using hge
      rw [hu, hqq] at hlow
      simp [calculateDaysLeft, JsNumber.isFinite, JsNumber.lt, JsNumber.le,
        LOW_ITEM_THRESHOLD_DAYS, hq0, not_lt.2 hq0] at hlow
    | posInf => rw [hqq] at hfin; simp [JsNumber.isFinite] at hfin
    | negInf => rw [hqq] at hfin; simp [JsNumber.isFinite] at hfin
    | nan => rw [hqq] at hfin; simp [JsNumber.isFinite] at hfin
  | nan =>
    exfalso
    cases hqq : item.quantity with
    | fin q =>
      rw [hqq] at hge
      have hq0 : 0 ≤ q := by simpa [JsNumber.ge, JsNumber.le] using hge
      rw [hu, hqq] at hlow
      simp [calculateDaysLeft, JsNumber.isFinite, JsNumber.lt, JsNumber.le,
        LOW_ITEM_THRESHOLD_DAYS, hq0, not_lt.2 hq0] at hlow
    | posInf => rw [hqq] at hfin; simp [JsNumber.isFinite] at hfin
    | negInf => rw [hqq] at hfin; simp [JsNumber.isFinite] at hfin
    | nan => rw [hqq] at hfin; simp [JsNumber.isFinite] at hfin

/-- The rule for Preparedness Pro as the code writes it, for every state and inventory:
the returned badges contain it exactly when the state already held it, or the inventory
is non-empty and every low item has at least 2 days when recomputed as quantity /
dailyUsage for a usage above 0 and taken as infinite otherwise. -/
theorem preparednessPro_recomputed (s : GamificationState)
    (inventory : List InventoryItem) (bills : List Bill) :
    "Preparedness Pro" ∈ (evaluateBadges s inventory bills).badges ↔
      "Preparedness Pro" ∈ s.badges ∨
        (inventory ≠ [] ∧ ∀ item ∈ getLowInventoryItems inventory,
          JsNumber.ge (recomputedDays item) (JsNumber.fin 2) = true) := by
  have h1 : ("Preparedness Pro" : String) ≠ "Utility Master" := by decide
  have h2 : ("Preparedness Pro" : String) ≠ "Resilient Household" := by decide
  rw [evaluateBadges_mem]
  simp [h1, h2]

/-- C18: for every state and every inventory whose items have a finite quantity of at
least 0, the returned badges contain Preparedness Pro exactly when the state already held
it, or the inventory is non-empty and every item that getLowInventoryItems classifies as
low has quantity / dailyUsage at least 2; with no low item a non-empty inventory earns
the badge, and an empty inventory never adds it. -/
theorem evaluateBadges_preparednessPro (s : GamificationState)
    (inventory : List InventoryItem) (bills : List Bill)
    (hq : ∀ item ∈ inventory,
      item.quantity.isFinite = true ∧ JsNumber.ge item.quantity (JsNumber.fin 0) = true) :
    ("Preparedness Pro" ∈ (evaluateBadges s inventory bills).badges ↔
      "Preparedness Pro" ∈ s.badges ∨
        (inventory ≠ [] ∧ ∀ item ∈ getLowInventoryItems inventory,
          JsNumber.ge (JsNumber.div item.quantity item.dailyUsage) (JsNumber.fin 2)
            = true)) ∧
    (inventory ≠ [] → getLowInventoryItems inventory = [] →
      "Preparedness Pro" ∈ (evaluateBadges s inventory bills).badges) ∧
    ("Preparedness Pro" ∈ (evaluateBadges s [] bills).badges ↔
      "Preparedness Pro" ∈ s.badges) := by
  have hrec : ∀ item ∈ getLowInventoryItems inventory,
      recomputedDays item = JsNumber.div item.quantity item.dailyUsage := by
    intro item hlow
    simp only [getLowInventoryItems, List.mem_filter] at hlow
    exact recomputedDays_of_low item (hq item hlow.1) hlow.2
  refine ⟨?_, ?_, ?_⟩
  · rw [preparednessPro_recomputed]
    constructor
    · rintro (h | ⟨hne, hall⟩)
      · exact Or.inl h
      · exact Or.inr ⟨hne, fun item hlow => by rw [← hrec item hlow]; exact hall item hlow⟩
    · rintro (h | ⟨hne, hall⟩)
      · exact Or.inl h
      · exact Or.inr ⟨hne, fun item hlow => by rw [hrec item hlow]; exact hall item hlow⟩
  · intro hne hlow
    rw [preparednessPro_recomputed]
    exact Or.inr ⟨hne, by simp [hlow]⟩
  · rw [preparednessPro_recomputed]
    simp

/-- Witness for C18: one item with a day of stock left, which is low and falls short of
2 days, so the badge is not added. -/
theorem evaluateBadges_preparednessPro_witness :
    getLowInventoryItems [lowStockItem] = [lowStockItem] ∧
    "Preparedness Pro" ∉
      (evaluateBadges initialGamificationState [lowStockItem] []).badges :=
  ⟨by decide, fun h =>
    absurd ((evaluateBadges_preparednessPro initialGamificationState [lowStockItem] []
      (by decide)).1.1 h) (by decide)⟩

/-- C19: awardPoints, registerInventoryEvent, registerBillPaid, registerReminderResponse
and updateStreak return the badges of their input, and evaluateBadges returns its input
with nothing but the badges replaced. -/
theorem badges_only_from_evaluateBadges (s : GamificationState) :
    (∀ (a : Award) (id now : String), (awardPoints s a id now).badges = s.badges) ∧
    (∀ (isNewItem : Bool) (itemName id now : String),
      (registerInventoryEvent s isNewItem itemName id now).badges = s.badges) ∧
    (∀ (billName : String) (onTime : Bool) (id now : String),
      (registerBillPaid s billName onTime id now).badges = s.badges) ∧
    (∀ id now ackTime : String, (registerReminderResponse s id now ackTime).badges = s.badges) ∧
    (∀ (hasIssues : Bool) (todayKey : String),
      (updateStreak s hasIssues todayKey).badges = s.badges) ∧
    (∀ (inventory : List InventoryItem) (bills : List Bill),
      evaluateBadges s inventory bills =
        { s with badges := (evaluateBadges s inventory bills).badges }) := by
  refine ⟨awardPoints_badges s, ?_, ?_, ?_, ?_, ?_⟩
  · intro isNewItem itemName id now
    cases isNewItem <;> simp [registerInventoryEvent, awardPoints_badges]
  · intro billName onTime id now
    cases onTime <;> simp [registerBillPaid, awardPoints_badges]
  · intro id now ackTime
    simp [registerReminderResponse, awardPoints_badges]
  · intro hasIssues todayKey
    by_cases hs : s.streak.lastEvaluatedDate = some todayKey
    · simp [updateStreak, hs]
    · simp [updateStreak, hs]
  · intro inventory bills
    rfl

/-! ## Household health -/

/-- C20: the score is 100 minus 12 per low item minus 18 per bill with daysUntil below 0,
clamped to the range from 0 to 100; the status is danger below 35, watch from 35 up to 69
and secure from 70 on; the colour class is fixed by the status and fixes it in turn; with
2 low items and 1 overdue bill the score is 58 and the status is watch. -/
theorem calculateHouseholdHealth_spec (calendar : Calendar) (inventory : List InventoryItem)
    (bills : List Bill) :
    (calculateHouseholdHealth calendar inventory bills).score =
      max 0 (min 100 (100 - 12 * ((getLowInventoryItems inventory).length : Int)
        - 18 * ((bills.filter (fun bill =>
            JsNumber.lt (daysUntil calendar bill.dueDate) (JsNumber.fin 0))).length : Int))) ∧
    0 ≤ (calculateHouseholdHealth calendar inventory bills).score ∧
    (calculateHouseholdHealth calendar inventory bills).score ≤ 100 ∧
    ((calculateHouseholdHealth calendar inventory bills).score < 35 →
      (calculateHouseholdHealth calendar inventory bills).status = "danger") ∧
    (35 ≤ (calculateHouseholdHealth calendar inventory bills).score →
      (calculateHouseholdHealth calendar inventory bills).score < 70 →
      (calculateHouseholdHealth calendar inventory bills).status = "watch") ∧
    (70 ≤ (calculateHouseholdHealth calendar inventory bills).score →
      (calculateHouseholdHealth calendar inventory bills).status = "secure") ∧
    ((calculateHouseholdHealth calendar inventory bills).status = "secure" ↔
      (calculateHouseholdHealth calendar inventory bills).colorClass = "bg-green-500") ∧
    ((calculateHouseholdHealth calendar inventory bills).status = "watch" ↔
      (calculateHouseholdHealth calendar inventory bills).colorClass = "bg-amber-400") ∧
    ((calculateHouseholdHealth calendar inventory bills).status = "danger" ↔
      (calculateHouseholdHealth calendar inventory bills).colorClass = "bg-red-500") ∧
    ((getLowInventoryItems inventory).length = 2 →
      (bills.filter (fun bill =>
        JsNumber.lt (daysUntil calendar bill.dueDate) (JsNumber.fin 0))).length = 1 →
      (calculateHouseholdHealth calendar inventory bills).score = 58 ∧
      (calculateHouseholdHealth calendar inventory bills).status = "watch") := by
  have hsw : ("secure" : String) ≠ "watch" := by decide
  have hsd : ("secure" : String) ≠ "danger" := by decide
  have hwd : ("watch" : String) ≠ "danger" := by decide
  have hga : ("bg-green-500" : String) ≠ "bg-amber-400" := by decide
  have hgr : ("bg-green-500" : String) ≠ "bg-red-500" := by decide
  have har : ("bg-amber-400" : String) ≠ "bg-red-500" := by decide
  simp only [calculateHouseholdHealth]
  generalize hL : (getLowInventoryItems inventory).length = low
  generalize hO : (bills.filter (fun bill =>
    JsNumber.lt (daysUntil calendar bill.dueDate) (JsNumber.fin 0))).length = overdue
  generalize hsc : max 0 (min 100 (100 - (low : Int) * 12 - (overdue : Int) * 18)) = sc
  have hsc0 : 0 ≤ sc := by omega
  have hsc100 : sc ≤ 100 := by omega
  refine ⟨by omega, hsc0, hsc100, ?_, ?_, ?_, ?_, ?_, ?_, ?_⟩
  · intro h; simp [h]
  · intro h1 h2
    have : ¬ sc < 35 := by omega
    simp [this, h2]
  · intro h1
    have a : ¬ sc < 35 := by omega
    have b : ¬ sc < 70 := by omega
    simp [a, b]
  · by_cases a : sc < 35
    · simp [a, hsd.symm, hwd.symm, hgr.symm, har.symm]
    · by_cases b : sc < 70
      · simp [a, b, hsw.symm, hga.symm]
      · simp [a, b]
  · by_cases a : sc < 35
    · simp [a, hsd.symm, hwd.symm, hgr.symm, har.symm]
    · by_cases b : sc < 70
      · simp [a, b, hsw.symm, hga.symm]
      · simp [a, b, hsw, hga]
  · by_cases a : sc < 35
    · simp [a, hsd.symm, hwd.symm, hgr.symm, har.symm]
    · by_cases b : sc < 70
      · simp [a, b, hsw.symm, hga.symm, hwd, har]
      · simp [a, b, hsd, hgr]
  · intro h2 h1
    subst h2 h1
    have : sc = 58 := by omega
    subst this
    simp

/-- Witness for C20: two items with one day of stock and one bill ten days overdue. -/
theorem calculateHouseholdHealth_spec_witness :
    (calculateHouseholdHealth sampleCalendar [lowStockItem, lowStockItem] [overdueBill]).score
      = 58 ∧
    (calculateHouseholdHealth sampleCalendar [lowStockItem, lowStockItem] [overdueBill]).status
      = "watch" :=
  (calculateHouseholdHealth_spec sampleCalendar [lowStockItem, lowStockItem]
    [overdueBill]).2.2.2.2.2.2.2.2.2 (by decide) (by decide)

/-! ## Days remaining and days until due -/

/-- C21 (as stated, refuted): for the quantity 2 ^ 1023 and the usage 1 the quotient is the
finite number 2 ^ 1023, yet calculateDaysLeft returns plus infinity, because ten times the
quotient is beyond the binary64 range. -/
theorem calculateDaysLeft_overflow :
    JsNumber.div hugeQuantity (JsNumber.fin 1) = hugeQuantity ∧
    hugeQuantity.isFinite = true ∧
    calculateDaysLeft hugeQuantity (JsNumber.fin 1) = JsNumber.posInf := by decide!

/-- C21 (amended): calculateDaysLeft returns 0 when the quantity is not finite or is
negative; otherwise plus infinity when the usage is not finite or is at most 0; otherwise
Math.round((quantity / dailyUsage) * 10) / 10 as binary64 arithmetic evaluates it.  At
(10, 0) that is plus infinity, at (-5, 2) it is 0 and at (10, 5) it is 2. -/
theorem calculateDaysLeft_cases (quantity dailyUsage : JsNumber) :
    ((quantity.isFinite = false ∨ JsNumber.lt quantity (JsNumber.fin 0) = true) →
      calculateDaysLeft quantity dailyUsage = JsNumber.fin 0) ∧
    (quantity.isFinite = true → JsNumber.lt quantity (JsNumber.fin 0) = false →
      (dailyUsage.isFinite = false ∨ JsNumber.le dailyUsage (JsNumber.fin 0) = true) →
      calculateDaysLeft quantity dailyUsage = JsNumber.posInf) ∧
    (quantity.isFinite = true → JsNumber.lt quantity (JsNumber.fin 0) = false →
      dailyUsage.isFinite = true → JsNumber.le dailyUsage (JsNumber.fin 0) = false →
      calculateDaysLeft quantity dailyUsage =
        JsNumber.div
          (JsNumber.round (JsNumber.mul (JsNumber.div quantity dailyUsage) (JsNumber.fin 10)))
          (JsNumber.fin 10)) ∧
    calculateDaysLeft (JsNumber.fin 10) (JsNumber.fin 0) = JsNumber.posInf ∧
    calculateDaysLeft (JsNumber.fin (-5)) (JsNumber.fin 2) = JsNumber.fin 0 ∧
    calculateDaysLeft (JsNumber.fin 10) (JsNumber.fin 5) = JsNumber.fin 2 := by
  refine ⟨?_, ?_, ?_, by decide, by decide, by decide⟩
  · rintro (h | h) <;> simp [calculateDaysLeft, h]
  · rintro h1 h2 (h | h) <;> simp [calculateDaysLeft, h1, h2, h]
  · intro h1 h2 h3 h4
    simp [calculateDaysLeft, h1, h2, h3, h4]

/-- C22: daysUntil returns plus infinity for an absent argument and for the empty string,
and NaN (not plus infinity) for a non-empty text that does not parse as a date. -/
theorem daysUntil_absent_or_unparseable (calendar : Calendar) :
    daysUntil calendar none = JsNumber.posInf ∧
    daysUntil calendar (some "") = JsNumber.posInf ∧
    (∀ text : String, text ≠ "" → calendar.localMidnight text = none →
      daysUntil calendar (some text) = JsNumber.nan) ∧
    daysUntil sampleCalendar (some "not a date") = JsNumber.nan := by
  refine ⟨rfl, rfl, ?_, by decide⟩
  intro text h1 h2
  simp [daysUntil, h1, h2, JsNumber.sub, JsNumber.div, JsNumber.floor]

/-- C23: when the target lies on today, daysUntil is 0; but in New York on 10 March 2024 a
target on 11 March, whose local midnight is 23 hours after today's, also gets 0 although
it lies on a later calendar day. -/
theorem daysUntil_spring_forward :
    (∀ (calendar : Calendar) (text : String), text ≠ "" →
      calendar.localMidnight text = some calendar.todayMidnight →
      daysUntil calendar (some text) = JsNumber.fin 0) ∧
    springForwardCalendar.localMidnight "2024-03-11T09:00" = some 1710129600000 ∧
    springForwardCalendar.todayMidnight < 1710129600000 ∧
    daysUntil springForwardCalendar (some "2024-03-11T09:00") = JsNumber.fin 0 := by
  refine ⟨?_, by decide, by decide, by decide⟩
  intro calendar text h1 h2
  have hsub : ratSub (calendar.todayMidnight : ℚ) (calendar.todayMidnight : ℚ) = 0 := by
    rw [ratSub_eq]; ring
  have hdiv : ratDiv 0 ((1000 * 60 * 60 * 24 : Int) : ℚ) = 0 := by
    rw [ratDiv_eq _ _ (by norm_num)]; simp
  simp only [daysUntil, h1, h2, if_false, JsNumber.sub, hsub, JsNumber.ofRat, if_true,
    JsNumber.div]
  rw [if_neg (by norm_num), hdiv]
  simp [JsNumber.floor]

/-! ## Threshold classifiers -/

/-- C24: getLowInventoryItems keeps exactly the items whose calculateDaysLeft is below 3,
in their original order, and never an item whose days remaining are plus infinity. -/
theorem getLowInventoryItems_spec (items : List InventoryItem) :
    (∀ item, item ∈ getLowInventoryItems items ↔
      item ∈ items ∧
        JsNumber.lt (calculateDaysLeft item.quantity item.dailyUsage) (JsNumber.fin 3) = true) ∧
    (getLowInventoryItems items).Sublist items ∧
    getLowInventoryItems items = items.filter (fun item =>
      JsNumber.lt (calculateDaysLeft item.quantity item.dailyUsage) (JsNumber.fin 3)) ∧
    (∀ item ∈ getLowInventoryItems items,
      calculateDaysLeft item.quantity item.dailyUsage ≠ JsNumber.posInf) := by
  refine ⟨fun item => ?_, List.filter_sublist _, rfl, ?_⟩
  · simp [getLowInventoryItems, LOW_ITEM_THRESHOLD_DAYS]
  · intro item h heq
    simp only [getLowInventoryItems, LOW_ITEM_THRESHOLD_DAYS, List.mem_filter] at h
    rw [heq] at h
    simp [JsNumber.lt] at h

theorem lt_zero_not_ge_zero (x : JsNumber) (h : JsNumber.lt x (JsNumber.fin 0) = true) :
    JsNumber.ge x (JsNumber.fin 0) = false := by
  cases x with
  | fin q =>
    simp only [JsNumber.lt, decide_eq_true_eq] at h
    simp only [JsNumber.ge, JsNumber.le, decide_eq_false_iff_not, not_le]
    exact h
  | posInf => simp [JsNumber.lt] at h
  | negInf => rfl
  | nan => rfl

/-- C25: getUpcomingBills keeps exactly the bills whose daysUntil is finite, at least 0 and
at most 7, in their original order; it keeps no bill with daysUntil below 0 and no bill
without a due date, so no bill is both upcoming and overdue. -/
theorem getUpcomingBills_spec (calendar : Calendar) (bills : List Bill) :
    (∀ bill, bill ∈ getUpcomingBills calendar bills ↔
      bill ∈ bills ∧ (daysUntil calendar bill.dueDate).isFinite = true ∧
        JsNumber.ge (daysUntil calendar bill.dueDate) (JsNumber.fin 0) = true ∧
        JsNumber.le (daysUntil calendar bill.dueDate) (JsNumber.fin 7) = true) ∧
    (getUpcomingBills calendar bills).Sublist bills ∧
    (∀ bill ∈ getUpcomingBills calendar bills,
      JsNumber.lt (daysUntil calendar bill.dueDate) (JsNumber.fin 0) = false) ∧
    (∀ bill ∈ getUpcomingBills calendar bills,
      bill.dueDate ≠ none ∧ bill.dueDate ≠ some "") ∧
    (∀ bill, ¬ (bill ∈ getUpcomingBills calendar bills ∧
      bill ∈ overdueBills calendar bills)) := by
  have hmem : ∀ bill, bill ∈ getUpcomingBills calendar bills ↔
      bill ∈ bills ∧ (daysUntil calendar bill.dueDate).isFinite = true ∧
        JsNumber.ge (daysUntil calendar bill.dueDate) (JsNumber.fin 0) = true ∧
        JsNumber.le (daysUntil calendar bill.dueDate) (JsNumber.fin 7) = true := by
    intro bill
    simp [getUpcomingBills, UPCOMING_BILL_THRESHOLD_DAYS, and_assoc]
  have hnot : ∀ bill ∈ getUpcomingBills calendar bills,
      JsNumber.lt (daysUntil calendar bill.dueDate) (JsNumber.fin 0) = false := by
    intro bill h
    have hge := ((hmem bill).1 h).2.2.1
    cases hlt : JsNumber.lt (daysUntil calendar bill.dueDate) (JsNumber.fin 0) with
    | false => rfl
    | true => rw [lt_zero_not_ge_zero _ hlt] at hge; exact absurd hge (by decide)
  refine ⟨hmem, List.filter_sublist _, hnot, ?_, ?_⟩
  · intro bill h
    have hfin := ((hmem bill).1 h).2.1
    constructor
    · intro hd
      rw [hd] at hfin
      simp [daysUntil, JsNumber.isFinite] at hfin
    · intro hd
      rw [hd] at hfin
      simp [daysUntil, JsNumber.isFinite] at hfin
  · rintro bill ⟨h1, h2⟩
    have := hnot bill h1
    simp only [overdueBills, List.mem_filter] at h2
    rw [h2.2] at this
    exact absurd this (by decide)

/-! ## Implicit behaviour -/

/-- C26: after the payments on time, late, on time, late, on time on the initial state,
evaluateBadges returns Utility Master although no three on-time payments are in a row. -/
theorem utilityMaster_without_three_in_a_row :
    threeInARow (paymentFlags alternatingPayments) = false ∧
    (run initialGamificationState alternatingPayments).counters.billsPaidOnTime = 3 ∧
    "Utility Master" ∈
      (evaluateBadges (run initialGamificationState alternatingPayments) [] []).badges := by
  decide

theorem apply_current_eq_prepared (s : GamificationState) (t : Transition)
    (h : s.streak.current = s.counters.consecutivePreparedDays) :
    (t.apply s).streak.current = (t.apply s).counters.consecutivePreparedDays := by
  cases t with
  | award reward id now =>
    simp [Transition.apply, awardPoints_streak, awardPoints_counters, h]
  | inventoryEvent isNewItem itemName id now =>
    cases isNewItem <;>
      simp [Transition.apply, registerInventoryEvent, awardPoints_streak,
        awardPoints_counters, h]
  | billPaid billName onTime id now =>
    cases onTime <;>
      simp [Transition.apply, registerBillPaid, awardPoints_streak, awardPoints_counters, h]
  | reminderResponse id now ackTime =>
    simp [Transition.apply, registerReminderResponse, awardPoints_streak,
      awardPoints_counters, h]
  | badges inventory bills => simp [Transition.apply, evaluateBadges, h]
  | streak hasIssues todayKey =>
    by_cases hs : s.streak.lastEvaluatedDate = some todayKey
    · simp [Transition.apply, updateStreak, hs, h]
    · cases hasIssues <;> simp [Transition.apply, updateStreak, hs, h]

theorem run_current_eq_prepared (steps : List Transition) :
    ∀ s : GamificationState, s.streak.current = s.counters.consecutivePreparedDays →
      (run s steps).streak.current = (run s steps).counters.consecutivePreparedDays := by
  induction steps with
  | nil => intro s h; exact h
  | cons t ts ih =>
    intro s h
    rw [run_cons]
    exact ih _ (apply_current_eq_prepared s t h)

/-- C28: in every state reachable from the initial state by engine transitions,
streak.current equals counters.consecutivePreparedDays. -/
theorem streak_current_eq_prepared_days (steps : List Transition) :
    (run initialGamificationState steps).streak.current
      = (run initialGamificationState steps).counters.consecutivePreparedDays :=
  run_current_eq_prepared steps initialGamificationState rfl

/-- C29: evaluateBadges returns the same state for any two bill lists. -/
theorem evaluateBadges_ignores_bills (s : GamificationState)
    (inventory : List InventoryItem) (b1 b2 : List Bill) :
    evaluateBadges s inventory b1 = evaluateBadges s inventory b2 := rfl

theorem historyPoints_cons (s : GamificationState) (e : HistoryEntry) (n d : Int)
    (hh : historyPoints s = some n) (he : e.points = Delta.number d) :
    historyPoints { s with history := e :: s.history } = some (n + d) := by
  unfold historyPoints at hh ⊢
  simp only [List.foldr_cons, he, hh]

/-- An award with a non-zero numeric delta on a balanced ledger with room in the history
leaves a balanced ledger with one more entry. -/
theorem awardPoints_ledger (s : GamificationState) (a : Award) (id now : String)
    (n d : Int) (hd : resolveDelta a = Delta.number d) (hd0 : d ≠ 0)
    (hn : s.points = PointsValue.number n) (hh : historyPoints s = some n)
    (hlen : s.history.length < 25) :
    (awardPoints s a id now).points = PointsValue.number (n + d) ∧
    historyPoints (awardPoints s a id now) = some (n + d) ∧
    (awardPoints s a id now).history.length = s.history.length + 1 := by
  have ht : (resolveDelta a).isFalsy = false := by
    rw [hd, isFalsy_number]; simp [hd0]
  have hlen2 : (AwardCall.entry ⟨a, id, now⟩ :: s.history).length ≤ 25 := by
    simp only [List.length_cons]; omega
  refine ⟨awardPoints_points s a id now n d hn hd, ?_, ?_⟩
  · rw [awardPoints_of_truthy s a id now ht, List.take_of_length_le hlen2]
    exact historyPoints_cons s _ n d hh hd
  · rw [awardPoints_of_truthy s a id now ht, List.take_of_length_le hlen2]
    simp

theorem historyPoints_congr (s u : GamificationState) (h : u.history = s.history) :
    historyPoints u = historyPoints s := by
  unfold historyPoints
  rw [h]

/-- A call that fires an award with a numeric delta keeps a ledger with room in the
history balanced and adds one entry. -/
theorem apply_fires (s : GamificationState) (t : Transition) (n : Int)
    (h : t.firesAward = true) (hnum : t.numericDelta = true)
    (hn : s.points = PointsValue.number n) (hh : historyPoints s = some n)
    (hlen : s.history.length < 25) :
    ∃ m : Int, (t.apply s).points = PointsValue.number m ∧
      historyPoints (t.apply s) = some m ∧
      (t.apply s).history.length = s.history.length + 1 := by
  cases t with
  | award reward id now =>
    simp only [Transition.numericDelta] at hnum
    simp only [Transition.firesAward, Bool.not_eq_true'] at h
    cases hd : resolveDelta reward with
    | number d =>
      rw [hd, isFalsy_number, decide_eq_false_iff_not] at h
      exact ⟨n + d, awardPoints_ledger s reward id now n d hd h hn hh hlen⟩
    | inherited name =>
      rw [hd] at hnum
      exact absurd hnum (by simp)
  | inventoryEvent isNewItem itemName id now =>
    cases isNewItem
    · obtain ⟨h1, h2, h3⟩ := awardPoints_ledger s
        ⟨"inventoryRestock", none, "🔄 Earned 6 points for restocking " ++ itemName ++ ".",
          some [("itemName", itemName)]⟩ id now n 6 rfl (by decide) hn hh hlen
      exact ⟨n + 6, by simpa [Transition.apply, registerInventoryEvent] using h1,
        by simpa [Transition.apply, registerInventoryEvent] using h2,
        by simpa [Transition.apply, registerInventoryEvent] using h3⟩
    · obtain ⟨h1, h2, h3⟩ := awardPoints_ledger s
        ⟨"inventoryAdd", none, "✨ Earned 10 points for logging " ++ itemName ++ ".",
          some [("itemName", itemName)]⟩ id now n 10 rfl (by decide) hn hh hlen
      refine ⟨n + 10, by simpa [Transition.apply, registerInventoryEvent] using h1, ?_,
        by simpa [Transition.apply, registerInventoryEvent] using h3⟩
      rw [← h2]
      exact historyPoints_congr _ _ (by simp [Transition.apply, registerInventoryEvent])
  | billPaid billName onTime id now =>
    simp only [Transition.firesAward] at h
    subst h
    obtain ⟨h1, h2, h3⟩ := awardPoints_ledger s
      ⟨"billPaidOnTime", none, "💡 Earned 15 points for paying " ++ billName ++ " on time.",
        some [("billName", billName)]⟩ id now n 15 rfl (by decide) hn hh hlen
    refine ⟨n + 15, by simpa [Transition.apply, registerBillPaid] using h1, ?_,
      by simpa [Transition.apply, registerBillPaid] using h3⟩
    rw [← h2]
    exact historyPoints_congr _ _ (by simp [Transition.apply, registerBillPaid])
  | reminderResponse id now ackTime =>
    obtain ⟨h1, h2, h3⟩ := awardPoints_ledger s
      ⟨"reminderResponse", none, "🎯 Earned 8 points for acting on a reminder.", none⟩
      id now n 8 rfl (by decide) hn hh hlen
    refine ⟨n + 8, by simpa [Transition.apply, registerReminderResponse] using h1, ?_,
      by simpa [Transition.apply, registerReminderResponse] using h3⟩
    rw [← h2]
    exact historyPoints_congr _ _ (by simp [Transition.apply, registerReminderResponse])
  | badges inventory bills => simp [Transition.firesAward] at h
  | streak hasIssues todayKey => simp [Transition.firesAward] at h

theorem apply_not_fires (s : GamificationState) (t : Transition)
    (h : t.firesAward = false) :
    (t.apply s).history = s.history ∧ (t.apply s).points = s.points := by
  cases t with
  | award reward id now =>
    have h0 : (resolveDelta reward).isFalsy = true := by
      simpa [Transition.firesAward] using h
    simp [Transition.apply, awardPoints_of_falsy, h0]
  | inventoryEvent isNewItem itemName id now => simp [Transition.firesAward] at h
  | billPaid billName onTime id now =>
    simp only [Transition.firesAward] at h
    subst h
    simp [Transition.apply, registerBillPaid]
  | reminderResponse id now ackTime => simp [Transition.firesAward] at h
  | badges inventory bills => simp [Transition.apply, evaluateBadges]
  | streak hasIssues todayKey =>
    by_cases hs : s.streak.lastEvaluatedDate = some todayKey
    · simp [Transition.apply, updateStreak, hs]
    · simp [Transition.apply, updateStreak, hs]

theorem run_ledger (steps : List Transition) :
    ∀ (s : GamificationState) (n : Int),
      s.points = PointsValue.number n → historyPoints s = some n →
      (∀ t ∈ steps, t.numericDelta = true) →
      s.history.length + (steps.filter Transition.firesAward).length ≤ 25 →
      (run s steps).history.length
        = s.history.length + (steps.filter Transition.firesAward).length ∧
      ∃ m : Int, (run s steps).points = PointsValue.number m ∧
        historyPoints (run s steps) = some m := by
  induction steps with
  | nil => intro s n hn hh _ _; exact ⟨by simp [run], n, hn, hh⟩
  | cons t ts ih =>
    intro s n hn hh hnum h
    rw [run_cons]
    cases hf : t.firesAward with
    | true =>
      simp only [List.filter_cons, hf, if_true, List.length_cons] at h ⊢
      obtain ⟨m, hm, hhm, hl⟩ :=
        apply_fires s t n hf (hnum t (by simp)) hn hh (by omega)
      obtain ⟨i1, i2⟩ := ih (t.apply s) m hm hhm
        (fun u hu => hnum u (by simp [hu])) (by omega)
      exact ⟨by omega, i2⟩
    | false =>
      simp only [List.filter_cons, hf] at h ⊢
      obtain ⟨he, hp⟩ := apply_not_fires s t hf
      obtain ⟨i1, i2⟩ := ih (t.apply s) n (by rw [hp, hn])
        (by rw [historyPoints_congr _ _ he, hh])
        (fun u hu => hnum u (by simp [hu])) (by rw [he]; simpa using h)
      exact ⟨by rw [i1, he]; simp, i2⟩

/-- The ledger on numeric deltas: after engine transitions from the initial state whose
awards all carry a numeric delta, and during which at most 25 awards have fired, the
point total is a number, it equals the sum of the points fields of the history entries,
and the history holds one entry per award fired. -/
theorem ledger_numeric (steps : List Transition)
    (hnum : ∀ t ∈ steps, t.numericDelta = true)
    (h : (steps.filter Transition.firesAward).length ≤ 25) :
    (∃ m : Int, (run initialGamificationState steps).points = PointsValue.number m ∧
      historyPoints (run initialGamificationState steps) = some m) ∧
    (run initialGamificationState steps).history.length
      = (steps.filter Transition.firesAward).length := by
  have hlen0 : initialGamificationState.history.length = 0 := rfl
  obtain ⟨h1, h2⟩ := run_ledger steps initialGamificationState 0 rfl rfl hnum (by omega)
  exact ⟨h2, by omega⟩

/-- C30 (the code departs from the claim): from the initial state, logging a new item and
then an award of the kind constructor with no amount fires two awards and writes two
history entries, but the second entry holds the function read under the inherited name
in its points field and the point total becomes a text: it is no number, and the points
fields have no sum for it to equal. -/
theorem ledger_breaks_on_inherited_kind :
    (inheritedKindRun.filter Transition.firesAward).length = 2 ∧
    (run initialGamificationState inheritedKindRun).history.length = 2 ∧
    (run initialGamificationState inheritedKindRun).history.map (fun entry => entry.points)
      = [Delta.inherited "constructor", Delta.number 10] ∧
    historyPoints (run initialGamificationState inheritedKindRun) = none ∧
    (run initialGamificationState inheritedKindRun).points
      = PointsValue.text 10 "constructor" [] ∧
    ∀ n : Int,
      (run initialGamificationState inheritedKindRun).points ≠ PointsValue.number n := by
  refine ⟨by decide, by decide, by decide, by decide, by decide, ?_⟩
  intro n hn
  have h : (run initialGamificationState inheritedKindRun).points
      = PointsValue.text 10 "constructor" [] := by decide
  rw [h] at hn
  exact absurd hn (by simp)

/-! ## Binary64 rounding: bounds -/

theorem bitLengthAux_bounds : ∀ fuel n : Nat, n ≤ fuel → 0 < n →
    2 ^ JsNumber.bitLengthAux fuel n ≤ 2 * n ∧ n < 2 ^ JsNumber.bitLengthAux fuel n := by
  intro fuel
  induction fuel with
  | zero => intro n h1 h2; omega
  | succ fuel ih =>
    intro n h1 h2
    have hn0 : n ≠ 0 := by omega
    simp only [JsNumber.bitLengthAux, hn0, if_false]
    by_cases hhalf : n / 2 = 0
    · have h1eq : n = 1 := by omega
      subst h1eq
      have : JsNumber.bitLengthAux fuel (1 / 2) = 0 := by
        cases fuel <;> simp [JsNumber.bitLengthAux]
      rw [this]
      constructor <;> norm_num
    · obtain ⟨i1, i2⟩ := ih (n / 2) (by omega) (by omega)
      rw [pow_succ]
      constructor <;> omega

theorem floorLog2_le (n d : Nat) (hn : 0 < n) (hd : 0 < d) :
    (2 : ℚ) ^ (JsNumber.floorLog2 n d) ≤ (n : ℚ) / d := by
  have hdq : (0 : ℚ) < d := by exact_mod_cast hd
  obtain ⟨ha1, -⟩ := bitLengthAux_bounds n n le_rfl hn
  obtain ⟨-, hb2⟩ := bitLengthAux_bounds d d le_rfl hd
  rw [le_div_iff₀ hdq]
  unfold JsNumber.floorLog2
  simp only [JsNumber.bitLength]
  set a := JsNumber.bitLengthAux n n
  set b := JsNumber.bitLengthAux d d
  have qa : (2 : ℚ) ^ a ≤ 2 * n := by exact_mod_cast ha1
  have qb : (d : ℚ) < 2 ^ b := by exact_mod_cast hb2
  have h2b : (0 : ℚ) < 2 ^ b := by positivity
  have fallback : (2 : ℚ) ^ ((a : Int) - b - 1) * d ≤ n := by
    rw [zpow_sub₀ (by norm_num), zpow_sub₀ (by norm_num), zpow_natCast, zpow_natCast, zpow_one]
    rw [div_div, div_mul_eq_mul_div, div_le_iff₀ (by positivity)]
    nlinarith
  by_cases hk : (0 : Int) ≤ (a : Int) - b
  · by_cases hat : d * 2 ^ ((a : Int) - b).toNat ≤ n
    · simp only [hk, hat, if_true, decide_True]
      have hcast : ((a : Int) - b) = ((((a : Int) - b).toNat : Nat) : Int) :=
        (Int.toNat_of_nonneg hk).symm
      rw [hcast, zpow_natCast]
      have : ((d * 2 ^ ((a : Int) - b).toNat : Nat) : ℚ) ≤ n := by exact_mod_cast hat
      push_cast at this
      linarith
    · simp only [hk, hat, if_true, decide_False, Bool.false_eq_true, if_false]
      exact fallback
  · by_cases hat : d ≤ n * 2 ^ (-((a : Int) - b)).toNat
    · simp only [hk, hat, if_false, decide_True, if_true]
      have hneg : (0 : Int) ≤ -((a : Int) - b) := by omega
      have hcast : ((a : Int) - b) = -((((-((a : Int) - b)).toNat : Nat)) : Int) := by
        rw [Int.toNat_of_nonneg hneg]; ring
      rw [hcast, zpow_neg, zpow_natCast]
      have : ((d : Nat) : ℚ) ≤ ((n * 2 ^ (-((a : Int) - b)).toNat : Nat) : ℚ) := by
        exact_mod_cast hat
      push_cast at this
      have hp : (0 : ℚ) < 2 ^ (-((a : Int) - b)).toNat := by positivity
      rw [inv_mul_le_iff₀ hp]
      linarith
    · simp only [hk, hat, if_false, decide_False, Bool.false_eq_true]
      exact fallback

theorem roundHalfEven_le (n d m : Nat) (hd : 0 < d) (h : n ≤ m * d) :
    JsNumber.roundHalfEven n d ≤ m := by
  have hq : n / d ≤ m := Nat.div_le_of_le_mul (by rw [Nat.mul_comm]; exact h)
  have hdm := Nat.div_add_mod n d
  have hr := Nat.mod_lt n hd
  unfold JsNumber.roundHalfEven
  simp only []
  by_cases heq : n / d = m
  · have hr0 : n % d = 0 := by
      rw [heq, Nat.mul_comm] at hdm
      omega
    rw [hr0, if_pos (by omega), heq]
  · have hlt : n / d < m := by omega
    split_ifs <;> omega

theorem rat_eq_natAbs_div_den (x : ℚ) (hx : 0 < x) :
    0 < x.num.natAbs ∧ x = (x.num.natAbs : ℚ) / x.den := by
  have hnum : 0 < x.num := Rat.num_pos.mpr hx
  constructor
  · omega
  · have : ((x.num.natAbs : Nat) : ℚ) = (x.num : ℚ) := by
      rw [Nat.cast_natAbs, abs_of_pos hnum]
    rw [this, Rat.num_div_den]

/-- Rounding a non-negative exact result gives a non-negative number or plus infinity. -/
theorem ofRat_nonneg_cases (x : ℚ) (hx : 0 ≤ x) :
    JsNumber.ofRat x = JsNumber.posInf ∨ ∃ y : ℚ, JsNumber.ofRat x = JsNumber.fin y ∧ 0 ≤ y := by
  by_cases h0 : x = 0
  · right; exact ⟨0, by simp [JsNumber.ofRat, h0], le_refl _⟩
  · have hneg : ¬ x < 0 := not_lt.mpr hx
    unfold JsNumber.ofRat JsNumber.roundBinary64
    simp only [h0, if_false, hneg, decide_False, Bool.false_eq_true]
    split_ifs <;> first
      | (left; rfl)
      | (right; exact ⟨_, rfl, by rw [Rat.mkRat_eq_div]; push_cast; positivity⟩)

/-- Rounding an exact result between 0 and a natural number below `2 ^ 53` gives a number
between 0 and that natural number. -/
theorem ofRat_le_nat (x : ℚ) (c : Nat) (hx : 0 ≤ x) (hxc : x ≤ c) (hc : c < 2 ^ 53) :
    ∃ y : ℚ, JsNumber.ofRat x = JsNumber.fin y ∧ 0 ≤ y ∧ y ≤ c := by
  by_cases h0 : x = 0
  · exact ⟨0, by simp [JsNumber.ofRat, h0], le_refl _, by positivity⟩
  have hpos : 0 < x := lt_of_le_of_ne hx (Ne.symm h0)
  have hneg : ¬ x < 0 := not_lt.mpr hx
  obtain ⟨hn, hxeq⟩ := rat_eq_natAbs_div_den x hpos
  have hd : 0 < x.den := x.den_pos
  have hdq : (0 : ℚ) < x.den := by exact_mod_cast hd
  have he := floorLog2_le x.num.natAbs x.den hn hd
  rw [← hxeq] at he
  have hcq : (c : ℚ) < 2 ^ (53 : Int) := by
    have : ((c : Nat) : ℚ) < ((2 ^ 53 : Nat) : ℚ) := by exact_mod_cast hc
    rw [zpow_ofNat]
    exact_mod_cast this
  have he53 : JsNumber.floorLog2 x.num.natAbs x.den < 53 := by
    have hlt : (2 : ℚ) ^ (JsNumber.floorLog2 x.num.natAbs x.den) < 2 ^ (53 : Int) :=
      lt_of_le_of_lt (le_trans he hxc) hcq
    exact (zpow_lt_zpow_iff_right₀ (by norm_num : (1 : ℚ) < 2)).mp hlt
  have hncd : x.num.natAbs ≤ c * x.den := by
    have h1 : (x.num.natAbs : ℚ) / x.den ≤ c := by rw [← hxeq]; exact hxc
    rw [div_le_iff₀ hdq] at h1
    exact_mod_cast h1
  unfold JsNumber.ofRat JsNumber.roundBinary64
  simp only [h0, if_false, hneg, decide_False, Bool.false_eq_true]
  generalize hE : JsNumber.floorLog2 x.num.natAbs x.den = e at he53
  have hshift : (0 : Int) ≤ Min.min (52 - e) 1074 := by
    rw [le_min_iff]; constructor <;> omega
  rw [if_neg (by omega)]
  simp only [hshift, if_true]
  refine ⟨_, rfl, by rw [Rat.mkRat_eq_div]; positivity, ?_⟩
  rw [Rat.mkRat_eq_div]
  have hs := roundHalfEven_le (x.num.natAbs * 2 ^ (Min.min (52 - e) 1074).toNat) x.den
    (c * 2 ^ (Min.min (52 - e) 1074).toNat) hd
    (by rw [Nat.mul_right_comm]; exact Nat.mul_le_mul_right _ hncd)
  have hp : (0 : ℚ) < ((2 ^ (Min.min (52 - e) 1074).toNat : Nat) : ℚ) := by positivity
  push_cast
  rw [div_le_iff₀ (by positivity)]
  have := (Nat.cast_le (α := ℚ)).mpr hs
  push_cast at this
  exact this

theorem mathRound_bounds (z : ℚ) (c : Int) (h0 : 0 ≤ z) (hc : z ≤ c) :
    0 ≤ mathRound z ∧ mathRound z ≤ c := by
  rw [mathRound_eq_floor]
  constructor
  · exact Int.floor_nonneg.mpr (by linarith)
  · have : ⌊z + 1 / 2⌋ < c + 1 := by
      rw [Int.floor_lt]
      push_cast
      linarith
    omega

/-- An item with a finite non-negative quantity and a finite positive usage whose quotient
quantity / dailyUsage is not at least 2 is classified as low. -/
theorem low_of_quotient_lt_two (q u : ℚ) (hq : 0 ≤ q) (hu : 0 < u)
    (h : JsNumber.ge (JsNumber.div (JsNumber.fin q) (JsNumber.fin u)) (JsNumber.fin 2) = false) :
    JsNumber.lt (calculateDaysLeft (JsNumber.fin q) (JsNumber.fin u)) (JsNumber.fin 3)
      = true := by
  have hu0 : u ≠ 0 := ne_of_gt hu
  have hq' : ¬ q < 0 := not_lt.mpr hq
  have hu' : ¬ u ≤ 0 := not_le.mpr hu
  have hcalc : calculateDaysLeft (JsNumber.fin q) (JsNumber.fin u) =
      JsNumber.div (JsNumber.round (JsNumber.mul
        (JsNumber.div (JsNumber.fin q) (JsNumber.fin u)) (JsNumber.fin 10))) (JsNumber.fin 10) := by
    simp [calculateDaysLeft, JsNumber.isFinite, JsNumber.lt, JsNumber.le, hq', hu']
  rw [hcalc]
  have hdiv : JsNumber.div (JsNumber.fin q) (JsNumber.fin u) = JsNumber.ofRat (q / u) := by
    simp [JsNumber.div, hu0, ratDiv_eq]
  rw [hdiv] at h ⊢
  rcases ofRat_nonneg_cases (q / u) (by positivity) with hinf | ⟨y, hy, hy0⟩
  · rw [hinf] at h
    simp [JsNumber.ge, JsNumber.le] at h
  · rw [hy] at h ⊢
    have hy2 : y < 2 := by
      simpa [JsNumber.ge, JsNumber.le] using h
    have hmul : JsNumber.mul (JsNumber.fin y) (JsNumber.fin 10) = JsNumber.ofRat (y * 10) := by
      simp [JsNumber.mul, ratMul_eq]
    obtain ⟨z, hz, hz0, hz20⟩ := ofRat_le_nat (y * 10) 20 (by positivity)
      (by push_cast; linarith) (by norm_num)
    rw [hmul, hz]
    obtain ⟨hm0, hm20⟩ := mathRound_bounds z 20 hz0 (by exact_mod_cast hz20)
    have hround : JsNumber.round (JsNumber.fin z) = JsNumber.fin (mathRound z : ℚ) := rfl
    rw [hround]
    have hdiv10 : JsNumber.div (JsNumber.fin (mathRound z : ℚ)) (JsNumber.fin 10) =
        JsNumber.ofRat ((mathRound z : ℚ) / 10) := by
      simp [JsNumber.div, ratDiv_eq]
    rw [hdiv10]
    have hm0q : (0 : ℚ) ≤ (mathRound z : ℚ) := by exact_mod_cast hm0
    have hm20q : (mathRound z : ℚ) ≤ 20 := by exact_mod_cast hm20
    obtain ⟨w, hw, -, hw2⟩ := ofRat_le_nat ((mathRound z : ℚ) / 10) 2 (by positivity)
      (by push_cast; linarith) (by norm_num)
    rw [hw]
    have : w < 3 := by
      have : w ≤ 2 := by exact_mod_cast hw2
      linarith
    simp [JsNumber.lt, this]

theorem wellFormed_iff (item : InventoryItem) :
    item.wellFormed = true ↔
      ∃ q u : ℚ, item.quantity = JsNumber.fin q ∧ 0 ≤ q ∧
        item.dailyUsage = JsNumber.fin u ∧ 0 < u := by
  unfold InventoryItem.wellFormed
  cases hq : item.quantity <;> cases hu : item.dailyUsage <;>
    simp [JsNumber.isFinite, JsNumber.ge, JsNumber.gt, JsNumber.le, JsNumber.lt]

/-- C27 (as stated, refuted): an inventory holding one item with quantity 5 and an
infinite usage rate (a usage above 0) earns Preparedness Pro, although the quotient
quantity / dailyUsage of that item is 0. -/
theorem preparednessPro_with_infinite_usage :
    "Preparedness Pro" ∉ initialGamificationState.badges ∧
    unboundedUsageItem.quantity.isFinite = true ∧
    JsNumber.ge unboundedUsageItem.quantity (JsNumber.fin 0) = true ∧
    JsNumber.gt unboundedUsageItem.dailyUsage (JsNumber.fin 0) = true ∧
    "Preparedness Pro" ∈
      (evaluateBadges initialGamificationState [unboundedUsageItem] []).badges ∧
    JsNumber.ge (JsNumber.div unboundedUsageItem.quantity unboundedUsageItem.dailyUsage)
      (JsNumber.fin 2) = false := by
  decide

/-- C27 (amended): for a state that lacks Preparedness Pro and an inventory whose items
all have a finite quantity of at least 0 and a finite usage above 0, evaluateBadges
returns the badge exactly when the inventory is non-empty and every item of it, low or
not, has quantity / dailyUsage at least 2. -/
theorem preparednessPro_all_items (s : GamificationState) (inventory : List InventoryItem)
    (bills : List Bill) (hs : "Preparedness Pro" ∉ s.badges)
    (hw : ∀ item ∈ inventory, item.wellFormed = true) :
    "Preparedness Pro" ∈ (evaluateBadges s inventory bills).badges ↔
      inventory ≠ [] ∧ ∀ item ∈ inventory,
        JsNumber.ge (JsNumber.div item.quantity item.dailyUsage) (JsNumber.fin 2) = true := by
  have h1 : ("Preparedness Pro" : String) ≠ "Utility Master" := by decide
  have h2 : ("Preparedness Pro" : String) ≠ "Resilient Household" := by decide
  rw [evaluateBadges_mem]
  simp only [hs, h1, h2, false_and, false_or, or_false, true_and]
  constructor
  · rintro ⟨hne, hall⟩
    refine ⟨hne, fun item hitem => ?_⟩
    obtain ⟨q, u, hq, hq0, hu, hu0⟩ := (wellFormed_iff item).1 (hw item hitem)
    have hrec : recomputedDays item = JsNumber.div item.quantity item.dailyUsage := by
      simp [recomputedDays, hu, JsNumber.gt, JsNumber.lt, hu0]
    cases hge : JsNumber.ge (JsNumber.div item.quantity item.dailyUsage) (JsNumber.fin 2) with
    | true => rfl
    | false =>
      have hlow : item ∈ getLowInventoryItems inventory := by
        simp only [getLowInventoryItems, LOW_ITEM_THRESHOLD_DAYS, List.mem_filter]
        refine ⟨hitem, ?_⟩
        rw [hq, hu] at hge ⊢
        exact low_of_quotient_lt_two q u hq0 hu0 hge
      have := hall item hlow
      rw [hrec, hge] at this
      exact absurd this (by decide)
  · rintro ⟨hne, hall⟩
    refine ⟨hne, fun item hlow => ?_⟩
    have hitem : item ∈ inventory := by
      simp only [getLowInventoryItems, List.mem_filter] at hlow
      exact hlow.1
    obtain ⟨q, u, hq, hq0, hu, hu0⟩ := (wellFormed_iff item).1 (hw item hitem)
    have hrec : recomputedDays item = JsNumber.div item.quantity item.dailyUsage := by
      simp [recomputedDays, hu, JsNumber.gt, JsNumber.lt, hu0]
    rw [hrec]
    exact hall item hitem

/-- Witness for C27: one item with two units in stock and one unit of usage a day. -/
theorem preparednessPro_all_items_witness :
    "Preparedness Pro" ∈
      (evaluateBadges initialGamificationState
        [{ lowStockItem with dailyUsage := JsNumber.fin 1 }] []).badges :=
  (preparednessPro_all_items initialGamificationState
    [{ lowStockItem with dailyUsage := JsNumber.fin 1 }] [] (by decide) (by decide)).2
    (by decide)

end LifeTracker
